import Mathlib

/-!
Verification development for the depth-bounded site-crawling and
link-classification engine of the scrapper repository.

The JavaScript sources are shallowly embedded as pure Lean functions:

* `src/utils/childLinkExtractor.js` — `resolveUrl`, `isValidChildLink`
  (strict variant), `filterAndProcessLinks`;
* the permissive `ChildLinkExtractor` variant embedded in
  `src/utils/proxyManager.js` — `isValidChildLinkOpen`;
* `src/utils/websiteContentScraper.js` — `scrapeWebsite`,
  `scrapeWebsites`, `createBatches`, `extractChildLinksFromResults`,
  and the depth walker `scrapeWebsitesWithDepth`;
* `src/utils/leadExtractor.js` — the circuit breaker
  (`isCircuitOpen`, `recordSuccess`, `recordFailure`) and
  `retryWithBackoff`;
* the `DataProcessor` of `src/utils/proxyManager.js` — `cleanEmail`,
  `removeDuplicates`.

Modelling conventions:

* Node's WHATWG `url` library (`new URL(u)` parsing / `new URL(href, base)`
  resolution) is an external collaborator; it is passed in as a `UrlLib`
  record (`parse`/`resolve` returning `none` where the library throws).
  A small `demoUrlLib`, agreeing with WHATWG on simple absolute
  http(s) URLs, is used for concrete runs.
* The Playwright browser is an external collaborator; a fetch of one page
  is a function `String → Option PageData` (`none` = navigation failure,
  i.e. `page.goto` threw).  `try`/`catch` becomes `Option`.
* JavaScript `Set` objects become `List String` used only through
  membership; string operations (`includes`, `startsWith`, `toLowerCase`,
  `trim`, `.length`) are modelled on the character list of the string
  (JS indexes UTF-16 units; on the ASCII data of this development the
  two coincide).
* Timestamps (`Date.now()`, `extractedAt`) carry no control flow except
  in the circuit breaker, where time is an explicit `Nat` parameter;
  `extractedAt`/`element` decoration fields of child links are omitted.
* Logging, random inter-request delays and `Promise` scheduling are
  side effects with no influence on the returned data; the embedding
  drops them.  `Promise.allSettled` over a batch settles every element
  and the code keeps the fulfilled non-null values in order, which is
  `List.filterMap` here.
-/

namespace Scrapper

/-! ### JavaScript string primitives -/

/-- JS `s.startsWith(p)`. -/
def jsStartsWith (s p : String) : Bool := p.data.isPrefixOf s.data

/-- JS `s.includes(p)` (substring containment). -/
def jsIncludes (s p : String) : Bool := decide (p.data <:+: s.data)

/-- JS `s.toLowerCase()` (ASCII case mapping). -/
def jsToLower (s : String) : String := ⟨s.data.map Char.toLower⟩

/-- JS `s.trim()`. -/
def jsTrim (s : String) : String :=
  ⟨((s.data.dropWhile Char.isWhitespace).reverse.dropWhile Char.isWhitespace).reverse⟩

/-- JS `s.length`. -/
def jsLength (s : String) : Nat := s.data.length

/-! ### Data model -/

/-- What `new URL(u)` exposes of a parsed URL (the fields the code reads). -/
structure UrlParts where
  protocol : String
  hostname : String
deriving DecidableEq

/-- The external WHATWG `url` library (`require("url")`): `parse` is
`new URL(u)` and `resolve` is `new URL(href, base).toString()`; `none`
models a thrown `TypeError`. -/
structure UrlLib where
  parse : String → Option UrlParts
  resolve : String → String → Option String

/-- A raw anchor harvested from the page: `{href, text, title}`
(the browser-side `page.evaluate` collects these for every `a[href]`
with nonempty href and text). -/
structure RawLink where
  href : String
  text : String
  title : String
deriving DecidableEq

/-- A classified child link (`childLink` object built by
`filterAndProcessLinks`; the `element`/`extractedAt` decoration is
omitted). -/
structure ChildLink where
  url : String
  text : String
  title : String
  depth : Nat
  parentUrl : String
deriving DecidableEq

/-- What one successful page navigation yields: the extracted main text
and the raw anchors of the page. -/
structure PageData where
  content : String
  links : List RawLink
deriving DecidableEq

/-- An entry of the walker's URL queue (`urlData`); the code reads
`urlData.url || urlData.link` (display metadata fields are dropped). -/
structure UrlData where
  url : String
  link : String
deriving DecidableEq

/-- JS `urlData.url || urlData.link` (a string is falsy iff empty). -/
def UrlData.theUrl (u : UrlData) : String :=
  if u.url = "" then u.link else u.url

/-- The value returned by a successful `scrapeWebsite` (its `metadata`
and `extractedAt` decoration dropped; `contentLength` is `jsLength content`). -/
structure ScrapeResult where
  url : String
  content : String
  depth : Nat
  childLinks : List ChildLink
deriving DecidableEq

/-- Fields of `config.DEPTH_SCRAPING` that the embedded code reads. -/
structure DepthScrapingConfig where
  enabled : Bool
  maxDepth : Nat
  maxChildLinksPerPage : Nat
  excludePatterns : List String
  includePatterns : List String

/-- The literal `DEPTH_SCRAPING` object of `src/config.js`. -/
def theConfig : DepthScrapingConfig where
  enabled := true
  maxDepth := 3
  maxChildLinksPerPage := 100
  excludePatterns :=
    ["mailto:", "tel:", "javascript:", "#", ".pdf", ".jpg", ".png", ".gif",
     ".css", ".js", ".xml", ".zip", ".rar", "facebook.com", "twitter.com",
     "instagram.com", "linkedin.com", "youtube.com", "google.com",
     "amazon.com", "wikipedia.org"]
  includePatterns :=
    ["/about", "/about-us", "/profile", "/contact", "/contact-us",
     "/services", "/products", "/team", "/company", "/blog", "/news",
     "/careers"]

/-! ### URL resolution and classification (`childLinkExtractor.js`) -/

/-- Embeds `resolveUrl(href, baseUrl)`: skip `javascript:`/`mailto:`/`tel:`/`#`
links, return absolute http(s) hrefs unchanged, otherwise resolve against
`baseUrl` with the URL library (`new URL(baseUrl)` throwing, or the
resolution itself throwing, yields `null`). -/
def resolveUrl (lib : UrlLib) (href baseUrl : String) : Option String :=
  if jsStartsWith href "javascript:" || jsStartsWith href "mailto:" ||
     jsStartsWith href "tel:" || jsStartsWith href "#" then
    none
  else if jsStartsWith href "http://" || jsStartsWith href "https://" then
    some href
  else
    match lib.parse baseUrl with
    | none => none
    | some _ => lib.resolve href baseUrl

/-- Embeds `getDomain(url)`: hostname of the parsed URL, `""` when parsing throws. -/
def getDomain (lib : UrlLib) (url : String) : String :=
  match lib.parse url with
  | none => ""
  | some u => u.hostname

/-- The `relevantKeywords` list of the strict `isValidChildLink`. -/
def relevantKeywords : List String :=
  ["about", "contact", "services", "products", "team", "company",
   "blog", "news", "careers", "staff", "leadership", "management",
   "portfolio", "gallery", "testimonials", "reviews", "faq",
   "help", "support", "location", "address", "phone", "email"]

/-- The `genericNavTexts` deny-list of the strict variant. -/
def genericNavTexts : List String :=
  ["home", "main", "menu", "navigation", "nav", "skip", "top",
   "back", "next", "previous", "more", "less", "show", "hide"]

/-- The `genericNavTexts` deny-list of the open variant
(`proxyManager.js`). -/
def genericNavTextsOpen : List String :=
  ["home", "main", "menu", "navigation", "nav", "skip", "top",
   "back", "next", "previous", "more", "less", "hide",
   "click here", "read more", "learn more", "view all", "see more"]

/-- Strict `isValidChildLink(url, link, baseDomain)` of
`src/utils/childLinkExtractor.js` (the variant the walker uses):
http(s) protocol, no exclude-pattern match on URL or anchor text,
same hostname as the base, then accept on an include-pattern match,
otherwise reject short or generic anchor text and finally require a
relevance keyword or anchor text longer than 10 characters. -/
def isValidChildLink (lib : UrlLib) (cfg : DepthScrapingConfig)
    (url : String) (link : RawLink) (baseDomain : String) : Bool :=
  match lib.parse url with
  | none => false
  | some urlObj =>
    if !(urlObj.protocol = "http:" || urlObj.protocol = "https:") then false
    else if cfg.excludePatterns.any (fun pattern =>
        jsIncludes url pattern ||
        jsIncludes (jsToLower link.text) (jsToLower pattern)) then false
    else if urlObj.hostname ≠ baseDomain then false
    else
      let linkText := jsToLower link.text
      if cfg.includePatterns.any (fun pattern => jsIncludes url pattern) then
        true
      else
        let hasRelevantKeyword :=
          relevantKeywords.any (fun keyword => jsIncludes linkText keyword)
        if jsLength linkText < 3 then false
        else if genericNavTexts.any (fun generic => linkText = generic) then false
        else hasRelevantKeyword || jsLength linkText > 10

/-- Open `isValidChildLink` of the `ChildLinkExtractor` embedded in
`src/utils/proxyManager.js`: same protocol and exclude-pattern gates,
the same-domain check commented out, then rejection of short, generic,
empty-after-trim, or purely non-alphabetic anchor text; everything else
is accepted. -/
def isValidChildLinkOpen (lib : UrlLib) (cfg : DepthScrapingConfig)
    (url : String) (link : RawLink) (_baseDomain : String) : Bool :=
  match lib.parse url with
  | none => false
  | some urlObj =>
    if !(urlObj.protocol = "http:" || urlObj.protocol = "https:") then false
    else if cfg.excludePatterns.any (fun pattern =>
        jsIncludes url pattern ||
        jsIncludes (jsToLower link.text) (jsToLower pattern)) then false
    else
      let linkText := jsToLower link.text
      if jsLength linkText < 3 then false
      else if genericNavTextsOpen.any (fun generic => linkText = generic) then false
      else if jsLength (jsTrim linkText) = 0 then false
      else if (jsTrim linkText).data.all (fun c => !c.isAlpha) then false
      else true

/-- The `childLink` record pushed by `filterAndProcessLinks`. -/
def mkChildLink (resolvedUrl : String) (link : RawLink)
    (currentDepth : Nat) (baseUrl : String) : ChildLink where
  url := resolvedUrl
  text := link.text
  title := link.title
  depth := currentDepth + 1
  parentUrl := baseUrl

/-- The loop body of `filterAndProcessLinks`: walk the raw links with the
local `seenUrls` set and the accumulated `childLinks`, skipping seen
hrefs, unresolvable links, already-visited URLs and links failing
`isValidChildLink`; stop as soon as the accumulated list reaches
`maxChildLinksPerPage`. -/
def filterLinksAux (lib : UrlLib) (cfg : DepthScrapingConfig)
    (visitedUrls : List String) (baseUrl baseDomain : String)
    (currentDepth : Nat) :
    List RawLink → List String → List ChildLink → List ChildLink
  | [], _, childLinks => childLinks
  | link :: rest, seenUrls, childLinks =>
    if link.href ∈ seenUrls then
      filterLinksAux lib cfg visitedUrls baseUrl baseDomain currentDepth
        rest seenUrls childLinks
    else
      match resolveUrl lib link.href baseUrl with
      | none =>
        filterLinksAux lib cfg visitedUrls baseUrl baseDomain currentDepth
          rest seenUrls childLinks
      | some resolvedUrl =>
        if resolvedUrl ∈ visitedUrls then
          filterLinksAux lib cfg visitedUrls baseUrl baseDomain currentDepth
            rest seenUrls childLinks
        else if !isValidChildLink lib cfg resolvedUrl link baseDomain then
          filterLinksAux lib cfg visitedUrls baseUrl baseDomain currentDepth
            rest seenUrls childLinks
        else if cfg.maxChildLinksPerPage ≤
            (childLinks ++ [mkChildLink resolvedUrl link currentDepth baseUrl]).length then
          childLinks ++ [mkChildLink resolvedUrl link currentDepth baseUrl]
        else
          filterLinksAux lib cfg visitedUrls baseUrl baseDomain currentDepth
            rest (seenUrls ++ [resolvedUrl])
            (childLinks ++ [mkChildLink resolvedUrl link currentDepth baseUrl])

/-- Embeds `filterAndProcessLinks(rawLinks, baseUrl, currentDepth)` of
`src/utils/childLinkExtractor.js`, with the extractor's `visitedUrls`
set passed explicitly. -/
def filterAndProcessLinks (lib : UrlLib) (cfg : DepthScrapingConfig)
    (visitedUrls : List String) (rawLinks : List RawLink)
    (baseUrl : String) (currentDepth : Nat) : List ChildLink :=
  filterLinksAux lib cfg visitedUrls baseUrl (getDomain lib baseUrl)
    currentDepth rawLinks [] []

/-- The same scan without the fan-out cap (specification device used to
state which links the cap keeps). -/
def filterLinksNoCap (lib : UrlLib) (cfg : DepthScrapingConfig)
    (visitedUrls : List String) (baseUrl baseDomain : String)
    (currentDepth : Nat) : List RawLink → List String → List ChildLink
  | [], _ => []
  | link :: rest, seenUrls =>
    if link.href ∈ seenUrls then
      filterLinksNoCap lib cfg visitedUrls baseUrl baseDomain currentDepth
        rest seenUrls
    else
      match resolveUrl lib link.href baseUrl with
      | none =>
        filterLinksNoCap lib cfg visitedUrls baseUrl baseDomain currentDepth
          rest seenUrls
      | some resolvedUrl =>
        if resolvedUrl ∈ visitedUrls then
          filterLinksNoCap lib cfg visitedUrls baseUrl baseDomain currentDepth
            rest seenUrls
        else if !isValidChildLink lib cfg resolvedUrl link baseDomain then
          filterLinksNoCap lib cfg visitedUrls baseUrl baseDomain currentDepth
            rest seenUrls
        else
          mkChildLink resolvedUrl link currentDepth baseUrl ::
            filterLinksNoCap lib cfg visitedUrls baseUrl baseDomain
              currentDepth rest (seenUrls ++ [resolvedUrl])

/-! ### Page fetching and the depth walker (`websiteContentScraper.js`) -/

/-- Embeds `scrapeWebsite(url, metadata, depth)`: navigate (failure → `null`),
reject content shorter than 100 characters (`throw` → `null`), extract
child links when depth scraping is enabled and `depth` is below
`config.DEPTH_SCRAPING?.MAX_DEPTH || 3`, and return the result record.
The browser is the `fetch` argument; `none` models both a thrown
navigation error and the `null` return. -/
def scrapeWebsite (lib : UrlLib) (cfg : DepthScrapingConfig)
    (fetch : String → Option PageData) (visitedUrls : List String)
    (url : String) (depth : Nat) : Option ScrapeResult :=
  match fetch url with
  | none => none
  | some pd =>
    if jsLength pd.content < 100 then none
    else
      let configMaxDepth := if cfg.maxDepth = 0 then 3 else cfg.maxDepth
      let childLinks :=
        if cfg.enabled && depth < configMaxDepth then
          filterAndProcessLinks lib cfg visitedUrls pd.links url depth
        else []
      some { url := url, content := pd.content, depth := depth,
             childLinks := childLinks }

/-- The slicing loop of `createBatches`, structurally recursive on a
fuel that bounds the number of iterations (each slice consumes at least
one element, so `l.length` fuel always suffices). -/
def createBatchesAux : Nat → List α → Nat → List (List α)
  | _, [], _ => []
  | 0, _ :: _, _ => []
  | fuel + 1, x :: xs, size =>
    (x :: xs.take (size - 1)) :: createBatchesAux fuel (xs.drop (size - 1)) size

/-- Embeds `createBatches(array, batchSize)`: consecutive slices of `batchSize`
elements (the scraper always passes `maxConcurrent = 3`). -/
def createBatches (l : List α) (size : Nat) : List (List α) :=
  createBatchesAux l.length l size

/-- Embeds `scrapeWebsites(urls, depth)`: scrape in batches of `maxConcurrent = 3`
via `Promise.allSettled`, keeping the fulfilled non-null results in
order. -/
def scrapeWebsites (lib : UrlLib) (cfg : DepthScrapingConfig)
    (fetch : String → Option PageData) (visitedUrls : List String)
    (urls : List UrlData) (depth : Nat) : List ScrapeResult :=
  (createBatches urls 3).flatMap fun batch =>
    batch.filterMap fun urlData =>
      scrapeWebsite lib cfg fetch visitedUrls urlData.theUrl depth

/-- The URL-deduplication loop of `extractChildLinksFromResults`
(`seenUrls` set, first occurrence kept). -/
def dedupChildLinks : List ChildLink → List String → List ChildLink
  | [], _ => []
  | link :: rest, seenUrls =>
    if link.url ∈ seenUrls then dedupChildLinks rest seenUrls
    else link :: dedupChildLinks rest (link.url :: seenUrls)

/-- Embeds `extractChildLinksFromResults(results)`: concatenate every result's
`childLinks` and drop later duplicates by URL. -/
def extractChildLinksFromResults (results : List ScrapeResult) : List ChildLink :=
  dedupChildLinks (results.flatMap (·.childLinks)) []

/-- Embeds `childLinks.map(link => ({url: link.url, ...}))` — the `urlData`
queued for the next depth (display metadata dropped). -/
def childUrlData (links : List ChildLink) : List UrlData :=
  links.map fun link => { url := link.url, link := "" }

/-- The mutable state of one `scrapeWebsitesWithDepth` session:
accumulated results, the growing `urlsToProcess` queue, the
`processedUrls` set, the extractor's `visitedUrls` set, and whether a
`break` has ended the loop. -/
structure WalkState where
  allResults : List ScrapeResult
  urlsToProcess : List UrlData
  processedUrls : List String
  visitedUrls : List String
  stopped : Bool
deriving DecidableEq

/-- Session start: empty results and sets (`clearVisited()`),
`urlsToProcess = [...urls]`. -/
def initWalkState (urls : List UrlData) : WalkState where
  allResults := []
  urlsToProcess := urls
  processedUrls := []
  visitedUrls := []
  stopped := false

/-- The per-level `newUrls` computation:
`urlsToProcess.filter(u => !processedUrls.has(u.url || u.link))`. -/
def newUrlsOf (st : WalkState) : List UrlData :=
  st.urlsToProcess.filter fun urlData => !st.processedUrls.contains urlData.theUrl

/-- One iteration of the `for (currentDepth = 0; currentDepth <= maxDepth)`
loop of `scrapeWebsitesWithDepth`: break on an empty queue or no new
URLs, mark the new URLs processed and visited, scrape them at the
current depth, and — below `maxDepth` — extract, deduplicate and queue
their child links. -/
def levelStep (lib : UrlLib) (cfg : DepthScrapingConfig)
    (fetch : String → Option PageData) (maxDepth : Nat)
    (currentDepth : Nat) (st : WalkState) : WalkState :=
  if st.stopped then st
  else if st.urlsToProcess.isEmpty then { st with stopped := true }
  else
    let newUrls := newUrlsOf st
    if newUrls.isEmpty then { st with stopped := true }
    else
      let processedUrls' := st.processedUrls ++ newUrls.map (·.theUrl)
      let visitedUrls' := st.visitedUrls ++ newUrls.map (·.theUrl)
      let depthResults :=
        scrapeWebsites lib cfg fetch visitedUrls' newUrls currentDepth
      let allResults' := st.allResults ++ depthResults
      if currentDepth < maxDepth then
        let childLinks := extractChildLinksFromResults depthResults
        { allResults := allResults'
          urlsToProcess := st.urlsToProcess ++ childUrlData childLinks
          processedUrls := processedUrls'
          visitedUrls := visitedUrls'
          stopped := false }
      else
        { allResults := allResults'
          urlsToProcess := st.urlsToProcess
          processedUrls := processedUrls'
          visitedUrls := visitedUrls'
          stopped := false }

/-- The final state of a depth-scraping session. -/
def walkFinalState (lib : UrlLib) (cfg : DepthScrapingConfig)
    (fetch : String → Option PageData) (urls : List UrlData)
    (maxDepth : Nat) : WalkState :=
  (List.range (maxDepth + 1)).foldl
    (fun st currentDepth => levelStep lib cfg fetch maxDepth currentDepth st)
    (initWalkState urls)

/-- Embeds `scrapeWebsitesWithDepth(urls, maxDepth)`: fall back to flat
scraping when depth scraping is disabled, otherwise run the level loop
and return all accumulated results. -/
def scrapeWebsitesWithDepth (lib : UrlLib) (cfg : DepthScrapingConfig)
    (fetch : String → Option PageData) (urls : List UrlData)
    (maxDepth : Nat) : List ScrapeResult :=
  if !cfg.enabled then scrapeWebsites lib cfg fetch [] urls 0
  else (walkFinalState lib cfg fetch urls maxDepth).allResults

/-- The session invariant of `scrapeWebsitesWithDepth`: fetched results
have pairwise-distinct URLs, all drawn from the processed set; the
pending unprocessed queue entries have pairwise-distinct URLs; and the
walker's `processedUrls` and the extractor's `visitedUrls` receive
identical updates, so they stay equal. -/
def WalkInv (st : WalkState) : Prop :=
  (st.allResults.map ScrapeResult.url).Nodup ∧
  (∀ r ∈ st.allResults, r.url ∈ st.processedUrls) ∧
  ((newUrlsOf st).map UrlData.theUrl).Nodup ∧
  st.visitedUrls = st.processedUrls

/-! ### Circuit breaker and retry governor (`leadExtractor.js`) -/

/-- Embeds `circuitBreakerThreshold = 5`. -/
def circuitBreakerThreshold : Nat := 5

/-- Embeds `circuitBreakerTimeout = 300000` (5 minutes). -/
def circuitBreakerTimeout : Nat := 300000

/-- The breaker's instance fields.  `lastFailureTime` is a millisecond
timestamp (`Date.now()`), modelled as `Nat`; time is monotone, so the
JS subtraction `now - lastFailureTime` agrees with truncated `Nat`
subtraction. -/
structure CircuitState where
  failureCount : Nat
  lastFailureTime : Nat
  circuitOpen : Bool
deriving DecidableEq

/-- The constructor's initial breaker state. -/
def initCircuitState : CircuitState where
  failureCount := 0
  lastFailureTime := 0
  circuitOpen := false

/-- Embeds `recordSuccess()`. -/
def recordSuccess (st : CircuitState) : CircuitState :=
  { st with failureCount := 0, circuitOpen := false }

/-- Embeds `recordFailure()` at time `now`: bump the count, stamp the time,
open the circuit at the threshold. -/
def recordFailure (now : Nat) (st : CircuitState) : CircuitState :=
  let failureCount := st.failureCount + 1
  { failureCount := failureCount
    lastFailureTime := now
    circuitOpen :=
      if circuitBreakerThreshold ≤ failureCount then true else st.circuitOpen }

/-- Embeds `isCircuitOpen()` at time `now`: closed circuits stay closed; an
open circuit past the cooldown window closes itself (count reset),
otherwise it reports open.  Returns the answer and the updated state. -/
def isCircuitOpen (now : Nat) (st : CircuitState) : Bool × CircuitState :=
  if !st.circuitOpen then (false, st)
  else if circuitBreakerTimeout < now - st.lastFailureTime then
    (false, { st with circuitOpen := false, failureCount := 0 })
  else (true, st)

/-- The `retryableErrors` message fragments of `isRetryableError`. -/
def retryableErrors : List String :=
  ["503 Service Unavailable", "429 Too Many Requests",
   "500 Internal Server Error", "502 Bad Gateway", "504 Gateway Timeout",
   "ECONNRESET", "ETIMEDOUT", "ENOTFOUND"]

/-- Embeds `isRetryableError(error)` on the error message. -/
def isRetryableError (errorMessage : String) : Bool :=
  retryableErrors.any fun retryableError => jsIncludes errorMessage retryableError

/-- How one governed call ends: the operation's value, the basic
(regex) fallback, or a rethrown non-retryable error. -/
inductive GovOutcome (α : Type) where
  | success (value : α)
  | fallback (value : α)
  | thrown (message : String)
deriving DecidableEq

/-- Result of a governed call: its outcome, how many times the wrapped
operation was attempted, and the breaker state afterwards. -/
structure GovResult (α : Type) where
  outcome : GovOutcome α
  opCalls : Nat
  state : CircuitState
deriving DecidableEq

/-- The `for (attempt = 1; attempt <= maxRetries; attempt++)` loop of
`retryWithBackoff`.  The wrapped operation is a function of the attempt
number (`Except.error` = the awaited call threw); `fallbackValue` is
`extractBasicLeads([{url: operationName, content: ""}])`, whose regex
scan is outside this core.  Delays are dropped.  The loop always
returns before the fuel (`maxRetries - attempt + 1`) runs out. -/
def runAttempts (op : Nat → Except String α) (fallbackValue : α)
    (now maxRetries : Nat) :
    Nat → Nat → Nat → CircuitState → GovResult α
  | _, 0, opCalls, st => ⟨.thrown "", opCalls, st⟩
  | attempt, fuel + 1, opCalls, st =>
    match op attempt with
    | .ok value => ⟨.success value, opCalls + 1, recordSuccess st⟩
    | .error message =>
      let st' := recordFailure now st
      if !isRetryableError message || attempt = maxRetries then
        if isRetryableError message then ⟨.fallback fallbackValue, opCalls + 1, st'⟩
        else ⟨.thrown message, opCalls + 1, st'⟩
      else runAttempts op fallbackValue now maxRetries (attempt + 1) fuel
        (opCalls + 1) st'

/-- Embeds `config.LLM.RETRY_ATTEMPTS || 5` — `config.LLM` has no
`RETRY_ATTEMPTS` field, so the default 5 applies. -/
def maxRetriesDefault : Nat := 5

/-- Embeds `retryWithBackoff(operation, operationName)` at time `now`: an open
circuit short-circuits to the fallback without attempting the
operation; otherwise run the bounded retry loop. -/
def retryWithBackoff (op : Nat → Except String α) (fallbackValue : α)
    (now : Nat) (st : CircuitState) : GovResult α :=
  match isCircuitOpen now st with
  | (true, st') => ⟨.fallback fallbackValue, 0, st'⟩
  | (false, st') =>
    runAttempts op fallbackValue now maxRetriesDefault 1 maxRetriesDefault 0 st'

/-! ### Lead assembly and dedup (`DataProcessor` in `proxyManager.js`) -/

/-- A candidate lead (the fields dedup reads; absent JS fields are `""`). -/
structure Lead where
  name : String
  title : String
  company : String
  email : String
  phone : String
deriving DecidableEq

/-- The `^[^\s@]+@[^\s@]+\.[^\s@]+$` test of `cleanEmail`: no
whitespace, exactly one `@` with something before it, and after the `@`
a dot that has at least one character on each side. -/
def emailShapeOk (s : String) : Bool :=
  if s.data.any Char.isWhitespace then false
  else
    match s.data.splitOn '@' with
    | [localPart, domainPart] =>
      !localPart.isEmpty && ((domainPart.drop 1).dropLast.contains '.')
    | _ => false

/-- The `invalidPatterns` prefixes of `cleanEmail` (the input is already
lower-cased when they are tested). -/
def invalidEmailPrefixes : List String :=
  ["test@", "example@", "admin@", "info@", "noreply@", "no-reply@",
   "donotreply@"]

/-- Embeds `cleanEmail(email)`: lower-case and trim, strip a leading
`mailto:`, drop every character outside `[\w@.-]`, then return `""`
unless the shape test passes and no invalid prefix matches. -/
def cleanEmail (email : String) : String :=
  if email = "" then ""
  else
    let c1 := jsTrim (jsToLower email)
    let c2 := if jsStartsWith c1 "mailto:" then ⟨c1.data.drop 7⟩ else c1
    let cleaned : String :=
      ⟨c2.data.filter fun c =>
        c.isAlphanum || c = '_' || c = '@' || c = '.' || c = '-'⟩
    if !emailShapeOk cleaned then ""
    else if invalidEmailPrefixes.any (fun p => jsStartsWith cleaned p) then ""
    else cleaned

/-- The dedup identity key of `removeDuplicates`:
`${name.toLowerCase().trim()}|${cleanEmail(email)}` (empty name kept
empty). -/
def leadKey (lead : Lead) : String :=
  let email := cleanEmail lead.email
  let name := if lead.name = "" then "" else jsTrim (jsToLower lead.name)
  name ++ "|" ++ email

/-- The `leads.forEach` loop of `removeDuplicates` with its
`seenNameEmail` set: keep a lead unless its key was already seen. -/
def removeDuplicatesAux : List Lead → List String → List Lead
  | [], _ => []
  | lead :: rest, seenNameEmail =>
    let nameEmailKey := leadKey lead
    if nameEmailKey ∈ seenNameEmail then removeDuplicatesAux rest seenNameEmail
    else lead :: removeDuplicatesAux rest (nameEmailKey :: seenNameEmail)

/-- Embeds `removeDuplicates(leads)` of the `DataProcessor`. -/
def removeDuplicates (leads : List Lead) : List Lead :=
  removeDuplicatesAux leads []

/-! ### Concrete instances for closed runs

A small stand-in for the external WHATWG `url` library, agreeing with
it on simple absolute http(s) URLs (scheme, hostname up to the first
delimiter); it throws (`none`) on anything else, so demo pages use
absolute hrefs only. -/

/-- Hostname characters stop at `/`, `:`, `?`, `#`. -/
def demoHostChar (c : Char) : Bool :=
  !(c == '/' || c == ':' || c == '?' || c == '#')

/-- Parse `new URL(u)` for simple absolute http(s) URLs. -/
def demoParse (s : String) : Option UrlParts :=
  if jsStartsWith s "http://" then
    some ⟨"http:", ⟨(s.data.drop 7).takeWhile demoHostChar⟩⟩
  else if jsStartsWith s "https://" then
    some ⟨"https:", ⟨(s.data.drop 8).takeWhile demoHostChar⟩⟩
  else none

/-- The demo library: parses simple absolute URLs, throws on relative
resolution. -/
def demoUrlLib : UrlLib where
  parse := demoParse
  resolve := fun _ _ => none

/-- A 100-character page text (the minimum `scrapeWebsite` accepts). -/
def longContent : String := ⟨List.replicate 100 'a'⟩

/-- Browser for the duplicate-seed run: one page, no links. -/
def demoFetchDup (url : String) : Option PageData :=
  if url = "http://a.com/x" then some ⟨longContent, []⟩ else none

/-- Browser for the frontier run: a seed page with one on-site contact
link. -/
def demoFetchFrontier (url : String) : Option PageData :=
  if url = "http://a.com/" then
    some ⟨longContent, [⟨"http://a.com/contact", "Contact Us", ""⟩]⟩
  else none

/-- Browser for the insufficient-content run: a page whose extracted
text is 4 characters long. -/
def demoFetchShort (url : String) : Option PageData :=
  if url = "http://short.com/" then some ⟨"tiny", []⟩ else none

/-- A two-link page used by concrete fan-out runs. -/
def demoRawLinks : List RawLink :=
  [⟨"http://a.com/contact", "Contact Us", ""⟩,
   ⟨"http://a.com/services", "Our Services", ""⟩]

/-! ### Helper lemmas -/

theorem createBatchesAux_flatten :
    ∀ (fuel : Nat) (l : List α) (size : Nat), l.length ≤ fuel →
      (createBatchesAux fuel l size).flatten = l := by
  intro fuel
  induction fuel with
  | zero =>
    intro l size hl
    cases l with
    | nil => rfl
    | cons x xs => simp at hl
  | succ fuel ih =>
    intro l size hl
    cases l with
    | nil => rfl
    | cons x xs =>
      rw [createBatchesAux, List.flatten_cons,
        ih (xs.drop (size - 1)) size (by
          simp only [List.length_cons] at hl
          simp only [List.length_drop]
          omega)]
      simp

theorem createBatches_flatten (l : List α) (size : Nat) :
    (createBatches l size).flatten = l :=
  createBatchesAux_flatten l.length l size (Nat.le_refl _)

/-- Batching is invisible in the returned data: `scrapeWebsites` is the
in-order `filterMap` of `scrapeWebsite` over the URL list. -/
theorem scrapeWebsites_eq_filterMap (lib : UrlLib) (cfg : DepthScrapingConfig)
    (fetch : String → Option PageData) (visited : List String)
    (urls : List UrlData) (depth : Nat) :
    scrapeWebsites lib cfg fetch visited urls depth =
      urls.filterMap fun u => scrapeWebsite lib cfg fetch visited u.theUrl depth := by
  unfold scrapeWebsites
  rw [List.flatMap_def, ← List.filterMap_flatten, createBatches_flatten]

/-- What a successful `scrapeWebsite` looks like. -/
theorem scrapeWebsite_some (lib : UrlLib) (cfg : DepthScrapingConfig)
    (fetch : String → Option PageData) (visited : List String)
    (url : String) (depth : Nat) (r : ScrapeResult)
    (h : scrapeWebsite lib cfg fetch visited url depth = some r) :
    r.url = url ∧ r.depth = depth ∧
      (r.childLinks =
          filterAndProcessLinks lib cfg visited
            ((fetch url).map PageData.links |>.getD []) url depth ∨
        r.childLinks = []) := by
  unfold scrapeWebsite at h
  cases hf : fetch url with
  | none => rw [hf] at h; exact absurd h (by simp)
  | some pd =>
    rw [hf] at h
    by_cases hlen : jsLength pd.content < 100
    · simp [hlen] at h
    · simp only [hlen, if_false] at h
      by_cases he : cfg.enabled && depth < (if cfg.maxDepth = 0 then 3 else cfg.maxDepth)
      · simp only [he, if_true] at h
        cases h
        exact ⟨rfl, rfl, Or.inl rfl⟩
      · simp only [he, if_false] at h
        cases h
        exact ⟨rfl, rfl, Or.inr rfl⟩

/-- Facts about every member of a `scrapeWebsites` batch round. -/
theorem scrapeWebsites_mem (lib : UrlLib) (cfg : DepthScrapingConfig)
    (fetch : String → Option PageData) (visited : List String)
    (urls : List UrlData) (depth : Nat) (r : ScrapeResult)
    (h : r ∈ scrapeWebsites lib cfg fetch visited urls depth) :
    r.depth = depth ∧ r.url ∈ urls.map UrlData.theUrl := by
  rw [scrapeWebsites_eq_filterMap] at h
  obtain ⟨u, hu, hr⟩ := List.mem_filterMap.mp h
  obtain ⟨hurl, hdep, _⟩ := scrapeWebsite_some _ _ _ _ _ _ _ hr
  exact ⟨hdep, hurl ▸ List.mem_map_of_mem _ hu⟩

/-- Every link the filter loop adds beyond its accumulator was resolved
from an input link, is not in the visited set, and passed
`isValidChildLink`. -/
theorem filterLinksAux_mem (lib : UrlLib) (cfg : DepthScrapingConfig)
    (visited : List String) (baseUrl baseDomain : String) (depth : Nat) :
    ∀ (links : List RawLink) (seen : List String) (acc : List ChildLink)
      (c : ChildLink),
      c ∈ filterLinksAux lib cfg visited baseUrl baseDomain depth links seen acc →
      c ∈ acc ∨ ∃ link resolvedUrl, link ∈ links ∧
        resolveUrl lib link.href baseUrl = some resolvedUrl ∧
        resolvedUrl ∉ visited ∧
        isValidChildLink lib cfg resolvedUrl link baseDomain = true ∧
        c = mkChildLink resolvedUrl link depth baseUrl := by
  intro links
  induction links with
  | nil => intro seen acc c h; exact Or.inl h
  | cons link rest ih =>
    intro seen acc c h
    rw [filterLinksAux] at h
    have bump : ∀ {seen' : List String} {acc' : List ChildLink},
        c ∈ filterLinksAux lib cfg visited baseUrl baseDomain depth rest seen' acc' →
        c ∈ acc' ∨ ∃ l u, l ∈ link :: rest ∧
          resolveUrl lib l.href baseUrl = some u ∧ u ∉ visited ∧
          isValidChildLink lib cfg u l baseDomain = true ∧
          c = mkChildLink u l depth baseUrl := by
      intro seen' acc' h'
      rcases ih seen' acc' c h' with hacc | ⟨l, u, hl, hres, hvis, hval, hc⟩
      · exact Or.inl hacc
      · exact Or.inr ⟨l, u, List.mem_cons_of_mem _ hl, hres, hvis, hval, hc⟩
    split at h
    · exact bump h
    · split at h
      · exact bump h
      · next resolvedUrl hres =>
        split at h
        · exact bump h
        · next h2 =>
          split at h
          · exact bump h
          · next h3 =>
            have hval : isValidChildLink lib cfg resolvedUrl link baseDomain = true := by
              revert h3
              cases isValidChildLink lib cfg resolvedUrl link baseDomain <;> simp
            split at h
            · rcases List.mem_append.mp h with hacc | hnew
              · exact Or.inl hacc
              · exact Or.inr ⟨link, resolvedUrl, List.mem_cons_self _ _, hres, h2,
                  hval, List.mem_singleton.mp hnew⟩
            · rcases bump h with hacc | hrest
              · rcases List.mem_append.mp hacc with hacc' | hnew
                · exact Or.inl hacc'
                · exact Or.inr ⟨link, resolvedUrl, List.mem_cons_self _ _, hres,
                    h2, hval, List.mem_singleton.mp hnew⟩
              · exact Or.inr hrest

/-- Characterization of the members of `filterAndProcessLinks`. -/
theorem filterAndProcessLinks_mem (lib : UrlLib) (cfg : DepthScrapingConfig)
    (visited : List String) (rawLinks : List RawLink) (baseUrl : String)
    (depth : Nat) (c : ChildLink)
    (h : c ∈ filterAndProcessLinks lib cfg visited rawLinks baseUrl depth) :
    ∃ link resolvedUrl, link ∈ rawLinks ∧
      resolveUrl lib link.href baseUrl = some resolvedUrl ∧
      resolvedUrl ∉ visited ∧
      isValidChildLink lib cfg resolvedUrl link (getDomain lib baseUrl) = true ∧
      c = mkChildLink resolvedUrl link depth baseUrl := by
  rcases filterLinksAux_mem lib cfg visited baseUrl (getDomain lib baseUrl)
      depth rawLinks [] [] c h with hacc | hgood
  · cases hacc
  · exact hgood

/-- An exclude-pattern match on the URL forces rejection in the strict
variant. -/
theorem isValidChildLink_exclude (lib : UrlLib) (cfg : DepthScrapingConfig)
    (url : String) (link : RawLink) (baseDomain : String) (p : String)
    (hp : p ∈ cfg.excludePatterns) (hinc : jsIncludes url p = true) :
    isValidChildLink lib cfg url link baseDomain = false := by
  cases hparse : lib.parse url with
  | none => simp [isValidChildLink, hparse]
  | some u =>
    have hany : (cfg.excludePatterns.any fun pattern =>
        jsIncludes url pattern ||
          jsIncludes (jsToLower link.text) (jsToLower pattern)) = true :=
      List.any_eq_true.mpr ⟨p, hp, by rw [hinc]; rfl⟩
    by_cases h1 : u.protocol = "http:" <;> by_cases h2 : u.protocol = "https:" <;>
      simp [isValidChildLink, hparse, h1, h2, hany]

/-- An exclude-pattern match on the URL forces rejection in the open
variant as well. -/
theorem isValidChildLinkOpen_exclude (lib : UrlLib) (cfg : DepthScrapingConfig)
    (url : String) (link : RawLink) (baseDomain : String) (p : String)
    (hp : p ∈ cfg.excludePatterns) (hinc : jsIncludes url p = true) :
    isValidChildLinkOpen lib cfg url link baseDomain = false := by
  cases hparse : lib.parse url with
  | none => simp [isValidChildLinkOpen, hparse]
  | some u =>
    have hany : (cfg.excludePatterns.any fun pattern =>
        jsIncludes url pattern ||
          jsIncludes (jsToLower link.text) (jsToLower pattern)) = true :=
      List.any_eq_true.mpr ⟨p, hp, by rw [hinc]; rfl⟩
    by_cases h1 : u.protocol = "http:" <;> by_cases h2 : u.protocol = "https:" <;>
      simp [isValidChildLinkOpen, hparse, h1, h2, hany]

/-- Links kept by `dedupChildLinks` all come from the input. -/
theorem dedupChildLinks_subset :
    ∀ (l : List ChildLink) (seen : List String) (c : ChildLink),
      c ∈ dedupChildLinks l seen → c ∈ l := by
  intro l
  induction l with
  | nil => intro seen c h; cases h
  | cons link rest ih =>
    intro seen c h
    rw [dedupChildLinks] at h
    by_cases h1 : link.url ∈ seen
    · rw [if_pos h1] at h; exact List.mem_cons_of_mem _ (ih _ _ h)
    · rw [if_neg h1] at h
      rcases List.mem_cons.mp h with hc | hc
      · exact hc ▸ List.mem_cons_self _ _
      · exact List.mem_cons_of_mem _ (ih _ _ hc)

/-- The URLs surviving `dedupChildLinks` avoid the seen set and are
pairwise distinct. -/
theorem dedupChildLinks_nodup :
    ∀ (l : List ChildLink) (seen : List String),
      (∀ c ∈ dedupChildLinks l seen, c.url ∉ seen) ∧
        ((dedupChildLinks l seen).map ChildLink.url).Nodup := by
  intro l
  induction l with
  | nil => intro seen; exact ⟨fun c h => absurd h (List.not_mem_nil c), List.nodup_nil⟩
  | cons link rest ih =>
    intro seen
    rw [dedupChildLinks]
    by_cases h1 : link.url ∈ seen
    · rw [if_pos h1]; exact ih seen
    · rw [if_neg h1]
      obtain ⟨havoid, hnodup⟩ := ih (link.url :: seen)
      constructor
      · intro c hc
        rcases List.mem_cons.mp hc with hc' | hc'
        · exact hc' ▸ h1
        · exact fun hmem => havoid c hc' (List.mem_cons_of_mem _ hmem)
      · rw [List.map_cons, List.nodup_cons]
        refine ⟨fun hmem => ?_, hnodup⟩
        obtain ⟨c, hc, hurl⟩ := List.mem_map.mp hmem
        exact havoid c hc (hurl ▸ List.mem_cons_self _ _)

/-- Every aggregated child link originates from one of the results. -/
theorem extractChildLinks_mem (results : List ScrapeResult) (c : ChildLink)
    (h : c ∈ extractChildLinksFromResults results) :
    ∃ r ∈ results, c ∈ r.childLinks :=
  List.mem_flatMap.mp (dedupChildLinks_subset _ _ _ h)

/-- The aggregated child links of a depth level have pairwise distinct
URLs. -/
theorem extractChildLinks_nodup (results : List ScrapeResult) :
    ((extractChildLinksFromResults results).map ChildLink.url).Nodup :=
  (dedupChildLinks_nodup _ _).2

/-- Child links of a successful scrape never point back into the
visited set. -/
theorem scrapeWebsite_childLinks_not_visited (lib : UrlLib)
    (cfg : DepthScrapingConfig) (fetch : String → Option PageData)
    (visited : List String) (url : String) (depth : Nat) (r : ScrapeResult)
    (h : scrapeWebsite lib cfg fetch visited url depth = some r) :
    ∀ c ∈ r.childLinks, c.url ∉ visited := by
  intro c hc
  obtain ⟨-, -, hchild | hchild⟩ := scrapeWebsite_some _ _ _ _ _ _ _ h
  · rw [hchild] at hc
    obtain ⟨link, resolvedUrl, -, -, hvis, -, hcmk⟩ :=
      filterAndProcessLinks_mem _ _ _ _ _ _ _ hc
    rw [hcmk]
    exact hvis
  · rw [hchild] at hc; cases hc

/-- The capped scan is a prefix of the uncapped scan: the cap keeps the
first accepted links and drops the rest.  (`max … 1` covers the
degenerate cap 0, where the push-then-check order still emits one
link.) -/
theorem filterLinksAux_eq_take (lib : UrlLib) (cfg : DepthScrapingConfig)
    (visited : List String) (baseUrl baseDomain : String) (depth : Nat) :
    ∀ (links : List RawLink) (seen : List String) (acc : List ChildLink),
      acc.length < max cfg.maxChildLinksPerPage 1 →
      filterLinksAux lib cfg visited baseUrl baseDomain depth links seen acc =
        acc ++ (filterLinksNoCap lib cfg visited baseUrl baseDomain depth
          links seen).take (max cfg.maxChildLinksPerPage 1 - acc.length) := by
  intro links
  induction links with
  | nil => intro seen acc hacc; rw [filterLinksAux, filterLinksNoCap]; simp
  | cons link rest ih =>
    intro seen acc hacc
    rw [filterLinksAux, filterLinksNoCap]
    by_cases h1 : link.href ∈ seen
    · simp only [if_pos h1]; exact ih seen acc hacc
    · simp only [if_neg h1]
      cases hres : resolveUrl lib link.href baseUrl with
      | none => exact ih seen acc hacc
      | some u =>
        by_cases h2 : u ∈ visited
        · simp only [if_pos h2]; exact ih seen acc hacc
        · simp only [if_neg h2]
          by_cases h3 : isValidChildLink lib cfg u link baseDomain = true
          · simp only [h3, Bool.not_true, Bool.false_eq_true, if_false]
            by_cases h4 : cfg.maxChildLinksPerPage ≤
                (acc ++ [mkChildLink u link depth baseUrl]).length
            · rw [if_pos h4]
              have h4' : cfg.maxChildLinksPerPage ≤ acc.length + 1 := by
                simpa using h4
              have hmax : max cfg.maxChildLinksPerPage 1 ≤ acc.length + 1 :=
                max_le h4' (by omega)
              have hm : max cfg.maxChildLinksPerPage 1 - acc.length = 1 := by
                omega
              rw [hm]
              simp
            · rw [if_neg h4]
              have h4' : acc.length + 1 < cfg.maxChildLinksPerPage := by
                simp only [List.length_append, List.length_singleton] at h4
                omega
              have hlt : acc.length + 1 < max cfg.maxChildLinksPerPage 1 :=
                lt_of_lt_of_le h4' (le_max_left _ _)
              have hlt' : (acc ++ [mkChildLink u link depth baseUrl]).length <
                  max cfg.maxChildLinksPerPage 1 := by simpa using hlt
              rw [ih (seen ++ [u]) _ hlt']
              have hstep : max cfg.maxChildLinksPerPage 1 - acc.length =
                  (max cfg.maxChildLinksPerPage 1 - (acc.length + 1)) + 1 := by
                omega
              rw [hstep]
              simp [List.take_succ_cons]
          · have h3' : isValidChildLink lib cfg u link baseDomain = false := by
              revert h3
              cases isValidChildLink lib cfg u link baseDomain <;> simp
            simp only [h3', Bool.not_false, if_true]
            exact ih seen acc hacc

/-- Membership in the per-level scheduled list. -/
theorem mem_newUrlsOf (st : WalkState) (u : UrlData) :
    u ∈ newUrlsOf st ↔ u ∈ st.urlsToProcess ∧ u.theUrl ∉ st.processedUrls := by
  simp [newUrlsOf]

/-- The queue entry built from a child link carries exactly the child's
URL. -/
theorem theUrl_childEntry (x : String) : UrlData.theUrl ⟨x, ""⟩ = x := by
  unfold UrlData.theUrl
  by_cases hx : x = ""
  · rw [if_pos hx, hx]
  · rw [if_neg hx]

/-- The scheduled list `newUrlsOf` ignores the `stopped` flag. -/
theorem newUrlsOf_setStopped (st : WalkState) (b : Bool) :
    newUrlsOf { st with stopped := b } = newUrlsOf st := rfl

/-- Invariant principle for the level fold. -/
theorem foldl_invariant {σ α : Type} (f : σ → α → σ) (P : σ → Prop) :
    ∀ (l : List α) (s : σ), P s → (∀ a ∈ l, ∀ t, P t → P (f t a)) →
      P (l.foldl f s)
  | [], _, hs, _ => hs
  | a :: l, s, hs, hstep => by
    rw [List.foldl_cons]
    exact foldl_invariant f P l (f s a) (hstep a (List.mem_cons_self _ _) s hs)
      fun b hb t ht => hstep b (List.mem_cons_of_mem _ hb) t ht

/-- Mapping a `filterMap` whose outputs project like the inputs yields a
sublist of the projected inputs. -/
theorem filterMap_map_sublist {α β γ : Type} (f : α → Option β) (g : β → γ)
    (h : α → γ) (H : ∀ a b, f a = some b → g b = h a) :
    ∀ l : List α, ((l.filterMap f).map g).Sublist (l.map h)
  | [] => List.Sublist.refl _
  | a :: l => by
    rw [List.map_cons, List.filterMap_cons]
    cases hfa : f a with
    | none => exact List.Sublist.cons _ (filterMap_map_sublist f g h H l)
    | some b =>
      rw [List.map_cons, H a b hfa]
      exact List.Sublist.cons₂ _ (filterMap_map_sublist f g h H l)

/-- The explicit form of a main-branch level step below `maxDepth`. -/
theorem levelStep_eq_main (lib : UrlLib) (cfg : DepthScrapingConfig)
    (fetch : String → Option PageData) (maxDepth d : Nat) (st : WalkState)
    (hstop : st.stopped = false) (hne : st.urlsToProcess.isEmpty = false)
    (hnew : (newUrlsOf st).isEmpty = false) (hd : d < maxDepth) :
    levelStep lib cfg fetch maxDepth d st =
      { allResults := st.allResults ++
          scrapeWebsites lib cfg fetch
            (st.visitedUrls ++ (newUrlsOf st).map UrlData.theUrl)
            (newUrlsOf st) d
        urlsToProcess := st.urlsToProcess ++
          childUrlData (extractChildLinksFromResults
            (scrapeWebsites lib cfg fetch
              (st.visitedUrls ++ (newUrlsOf st).map UrlData.theUrl)
              (newUrlsOf st) d))
        processedUrls := st.processedUrls ++ (newUrlsOf st).map UrlData.theUrl
        visitedUrls := st.visitedUrls ++ (newUrlsOf st).map UrlData.theUrl
        stopped := false } := by
  simp only [levelStep, hstop, hne, hnew, Bool.false_eq_true, if_false,
    if_pos hd]

/-- The explicit form of a main-branch level step at `maxDepth` (no
child links are queued). -/
theorem levelStep_eq_last (lib : UrlLib) (cfg : DepthScrapingConfig)
    (fetch : String → Option PageData) (maxDepth d : Nat) (st : WalkState)
    (hstop : st.stopped = false) (hne : st.urlsToProcess.isEmpty = false)
    (hnew : (newUrlsOf st).isEmpty = false) (hd : ¬d < maxDepth) :
    levelStep lib cfg fetch maxDepth d st =
      { allResults := st.allResults ++
          scrapeWebsites lib cfg fetch
            (st.visitedUrls ++ (newUrlsOf st).map UrlData.theUrl)
            (newUrlsOf st) d
        urlsToProcess := st.urlsToProcess
        processedUrls := st.processedUrls ++ (newUrlsOf st).map UrlData.theUrl
        visitedUrls := st.visitedUrls ++ (newUrlsOf st).map UrlData.theUrl
        stopped := false } := by
  simp only [levelStep, hstop, hne, hnew, Bool.false_eq_true, if_false,
    if_neg hd]

/-- Once the level's new URLs are marked, every entry of the queue is
processed. -/
theorem queue_processed_after (st : WalkState) (u : UrlData)
    (hu : u ∈ st.urlsToProcess) :
    u.theUrl ∈ st.processedUrls ++ (newUrlsOf st).map UrlData.theUrl := by
  by_cases hp : u.theUrl ∈ st.processedUrls
  · exact List.mem_append_left _ hp
  · exact List.mem_append_right _
      (List.mem_map_of_mem _ ((mem_newUrlsOf st u).mpr ⟨hu, hp⟩))

/-- Against the marked set, the old queue contributes no new URLs. -/
theorem filter_old_queue_nil (st : WalkState) :
    st.urlsToProcess.filter (fun u =>
      !(st.processedUrls ++ (newUrlsOf st).map UrlData.theUrl).contains
        u.theUrl) = [] := by
  rw [List.filter_eq_nil_iff]
  intro u hu
  simp [queue_processed_after st u hu]

/-- Entries built from unprocessed children all survive the next
level's filter. -/
theorem filter_children_all (P : List String) (links : List ChildLink)
    (h : ∀ c ∈ links, c.url ∉ P) :
    (childUrlData links).filter (fun u => !P.contains u.theUrl) =
      childUrlData links := by
  rw [List.filter_eq_self]
  intro u hu
  obtain ⟨c, hc, rfl⟩ := List.mem_map.mp hu
  simp [theUrl_childEntry, h c hc]

/-- Queue entries built from child links project back to the child
URLs. -/
theorem childUrlData_map_theUrl (links : List ChildLink) :
    (childUrlData links).map UrlData.theUrl = links.map ChildLink.url := by
  unfold childUrlData
  rw [List.map_map]
  exact List.map_congr_left fun c _ => theUrl_childEntry c.url

/-- Child links extracted during a level stay outside the marked set. -/
theorem children_not_processed (lib : UrlLib) (cfg : DepthScrapingConfig)
    (fetch : String → Option PageData) (st : WalkState) (d : Nat)
    (hv : st.visitedUrls = st.processedUrls) :
    ∀ c ∈ extractChildLinksFromResults
        (scrapeWebsites lib cfg fetch
          (st.visitedUrls ++ (newUrlsOf st).map UrlData.theUrl)
          (newUrlsOf st) d),
      c.url ∉ st.processedUrls ++ (newUrlsOf st).map UrlData.theUrl := by
  intro c hc
  obtain ⟨r, hr, hcr⟩ := extractChildLinks_mem _ _ hc
  rw [scrapeWebsites_eq_filterMap] at hr
  obtain ⟨u, _, hru⟩ := List.mem_filterMap.mp hr
  have := scrapeWebsite_childLinks_not_visited _ _ _ _ _ _ _ hru c hcr
  rw [hv] at this
  exact this

/-- The fetched URLs of a level round are a sublist of the level's
scheduled URLs. -/
theorem scrapeWebsites_map_url_sublist (lib : UrlLib)
    (cfg : DepthScrapingConfig) (fetch : String → Option PageData)
    (visited : List String) (urls : List UrlData) (d : Nat) :
    ((scrapeWebsites lib cfg fetch visited urls d).map
      ScrapeResult.url).Sublist (urls.map UrlData.theUrl) := by
  rw [scrapeWebsites_eq_filterMap]
  exact filterMap_map_sublist _ _ _
    (fun a b hb => (scrapeWebsite_some _ _ _ _ _ _ _ hb).1) urls

/-- The level loop preserves the session invariant. -/
theorem levelStep_preserves_inv (lib : UrlLib) (cfg : DepthScrapingConfig)
    (fetch : String → Option PageData) (maxDepth d : Nat) (st : WalkState)
    (h : WalkInv st) : WalkInv (levelStep lib cfg fetch maxDepth d st) := by
  obtain ⟨hnodup, hin, hnewnodup, hv⟩ := h
  by_cases hstop : st.stopped = true
  · rw [levelStep, if_pos hstop]; exact ⟨hnodup, hin, hnewnodup, hv⟩
  · have hstop' : st.stopped = false := by
      revert hstop; cases st.stopped <;> simp
    by_cases hne : st.urlsToProcess.isEmpty = true
    · rw [levelStep, if_neg (by simp [hstop']), if_pos hne]
      exact ⟨hnodup, hin, hnewnodup, hv⟩
    · have hne' : st.urlsToProcess.isEmpty = false := by
        revert hne; cases st.urlsToProcess.isEmpty <;> simp
      by_cases hnew : (newUrlsOf st).isEmpty = true
      · have : levelStep lib cfg fetch maxDepth d st = { st with stopped := true } := by
          simp only [levelStep, hstop', hne', hnew, Bool.false_eq_true,
            if_false, if_true]
        rw [this]
        exact ⟨hnodup, hin, hnewnodup, hv⟩
      · have hnew' : (newUrlsOf st).isEmpty = false := by
          revert hnew; cases (newUrlsOf st).isEmpty <;> simp
        have hsub := scrapeWebsites_map_url_sublist lib cfg fetch
          (st.visitedUrls ++ (newUrlsOf st).map UrlData.theUrl)
          (newUrlsOf st) d
        have hRnodup := hsub.nodup hnewnodup
        have hRsub : ∀ x, x ∈ ((scrapeWebsites lib cfg fetch
            (st.visitedUrls ++ (newUrlsOf st).map UrlData.theUrl)
            (newUrlsOf st) d).map ScrapeResult.url) →
            x ∈ (newUrlsOf st).map UrlData.theUrl := fun x hx => hsub.subset hx
        have hdisj : ((st.allResults.map ScrapeResult.url).Disjoint
            ((scrapeWebsites lib cfg fetch
              (st.visitedUrls ++ (newUrlsOf st).map UrlData.theUrl)
              (newUrlsOf st) d).map ScrapeResult.url)) := by
          intro x hx₁ hx₂
          obtain ⟨r, hr, rfl⟩ := List.mem_map.mp hx₁
          obtain ⟨u, hu, huu⟩ := List.mem_map.mp (hRsub _ hx₂)
          exact ((mem_newUrlsOf st u).mp hu).2 (huu ▸ hin r hr)
        have hall : ∀ r ∈ st.allResults ++ scrapeWebsites lib cfg fetch
            (st.visitedUrls ++ (newUrlsOf st).map UrlData.theUrl)
            (newUrlsOf st) d,
            r.url ∈ st.processedUrls ++ (newUrlsOf st).map UrlData.theUrl := by
          intro r hr
          rcases List.mem_append.mp hr with hr' | hr'
          · exact List.mem_append_left _ (hin r hr')
          · exact List.mem_append_right _
              (scrapeWebsites_mem _ _ _ _ _ _ _ hr').2
        have hresNodup : ((st.allResults ++ scrapeWebsites lib cfg fetch
            (st.visitedUrls ++ (newUrlsOf st).map UrlData.theUrl)
            (newUrlsOf st) d).map ScrapeResult.url).Nodup := by
          rw [List.map_append, List.nodup_append]
          exact ⟨hnodup, hRnodup, hdisj⟩
        by_cases hd : d < maxDepth
        · rw [levelStep_eq_main lib cfg fetch maxDepth d st hstop' hne' hnew' hd]
          refine ⟨hresNodup, hall, ?_, by rw [hv]⟩
          show (((st.urlsToProcess ++ childUrlData _).filter fun u =>
            !(st.processedUrls ++ (newUrlsOf st).map UrlData.theUrl).contains
              u.theUrl).map UrlData.theUrl).Nodup
          rw [List.filter_append, filter_old_queue_nil, List.nil_append,
            filter_children_all _ _
              (children_not_processed lib cfg fetch st d hv),
            childUrlData_map_theUrl]
          exact extractChildLinks_nodup _
        · rw [levelStep_eq_last lib cfg fetch maxDepth d st hstop' hne' hnew' hd]
          refine ⟨hresNodup, hall, ?_, by rw [hv]⟩
          show ((st.urlsToProcess.filter fun u =>
            !(st.processedUrls ++ (newUrlsOf st).map UrlData.theUrl).contains
              u.theUrl).map UrlData.theUrl).Nodup
          rw [filter_old_queue_nil]
          exact List.nodup_nil

/-- Results present after a level step: either carried over, or fetched
at this level from the level's scheduled URLs. -/
theorem levelStep_allResults_mem (lib : UrlLib) (cfg : DepthScrapingConfig)
    (fetch : String → Option PageData) (maxDepth d : Nat) (st : WalkState)
    (r : ScrapeResult)
    (hr : r ∈ (levelStep lib cfg fetch maxDepth d st).allResults) :
    r ∈ st.allResults ∨
      (r.depth = d ∧ r.url ∈ (newUrlsOf st).map UrlData.theUrl) := by
  by_cases hstop : st.stopped = true
  · rw [levelStep, if_pos hstop] at hr; exact Or.inl hr
  · have hstop' : st.stopped = false := by
      revert hstop; cases st.stopped <;> simp
    by_cases hne : st.urlsToProcess.isEmpty = true
    · rw [levelStep, if_neg (by simp [hstop']), if_pos hne] at hr
      exact Or.inl hr
    · have hne' : st.urlsToProcess.isEmpty = false := by
        revert hne; cases st.urlsToProcess.isEmpty <;> simp
      by_cases hnew : (newUrlsOf st).isEmpty = true
      · have heq : levelStep lib cfg fetch maxDepth d st =
            { st with stopped := true } := by
          simp only [levelStep, hstop', hne', hnew, Bool.false_eq_true,
            if_false, if_true]
        rw [heq] at hr
        exact Or.inl hr
      · have hnew' : (newUrlsOf st).isEmpty = false := by
          revert hnew; cases (newUrlsOf st).isEmpty <;> simp
        have split : r ∈ st.allResults ++ scrapeWebsites lib cfg fetch
            (st.visitedUrls ++ (newUrlsOf st).map UrlData.theUrl)
            (newUrlsOf st) d := by
          by_cases hd : d < maxDepth
          · rw [levelStep_eq_main lib cfg fetch maxDepth d st hstop' hne'
              hnew' hd] at hr
            exact hr
          · rw [levelStep_eq_last lib cfg fetch maxDepth d st hstop' hne'
              hnew' hd] at hr
            exact hr
        rcases List.mem_append.mp split with h | h
        · exact Or.inl h
        · exact Or.inr ⟨(scrapeWebsites_mem _ _ _ _ _ _ _ h).1,
            (scrapeWebsites_mem _ _ _ _ _ _ _ h).2⟩

/-- Depth bound of a whole session. -/
theorem walk_depth_le (lib : UrlLib) (cfg : DepthScrapingConfig)
    (fetch : String → Option PageData) (seeds : List UrlData) (k : Nat) :
    ∀ r ∈ scrapeWebsitesWithDepth lib cfg fetch seeds k, r.depth ≤ k := by
  intro r hr
  rw [scrapeWebsitesWithDepth] at hr
  by_cases hen : cfg.enabled
  · rw [if_neg (by simp [hen])] at hr
    have hinv := foldl_invariant
      (fun st d => levelStep lib cfg fetch k d st)
      (fun st => ∀ r ∈ st.allResults, r.depth ≤ k)
      (List.range (k + 1)) (initWalkState seeds)
      (fun r hr => absurd hr (List.not_mem_nil r))
      (fun d hd st hst r hr => by
        rcases levelStep_allResults_mem lib cfg fetch k d st r hr with h | h
        · exact hst r h
        · rw [h.1]; exact Nat.lt_succ_iff.mp (List.mem_range.mp hd))
    exact hinv r hr
  · rw [if_pos (by simp [hen])] at hr
    rw [(scrapeWebsites_mem _ _ _ _ _ _ _ hr).1]
    exact Nat.zero_le k

/-- With `maxDepth = 0` only the seed URLs are fetched, all at depth
0. -/
theorem walk_zero (lib : UrlLib) (cfg : DepthScrapingConfig)
    (fetch : String → Option PageData) (seeds : List UrlData) :
    ∀ r ∈ scrapeWebsitesWithDepth lib cfg fetch seeds 0,
      r.depth = 0 ∧ r.url ∈ seeds.map UrlData.theUrl := by
  intro r hr
  rw [scrapeWebsitesWithDepth] at hr
  by_cases hen : cfg.enabled
  · rw [if_neg (by simp [hen])] at hr
    rw [walkFinalState, show List.range (0 + 1) = [0] from rfl,
      List.foldl_cons, List.foldl_nil] at hr
    rcases levelStep_allResults_mem lib cfg fetch 0 0 (initWalkState seeds)
        r hr with h | ⟨hd, hu⟩
    · cases h
    · refine ⟨hd, ?_⟩
      obtain ⟨u, hu', huu⟩ := List.mem_map.mp hu
      exact huu ▸ List.mem_map_of_mem _ (List.mem_of_mem_filter hu')
  · rw [if_pos (by simp [hen])] at hr
    exact ⟨(scrapeWebsites_mem _ _ _ _ _ _ _ hr).1,
      (scrapeWebsites_mem _ _ _ _ _ _ _ hr).2⟩

/-- The scheduled list at session start is the seed list itself. -/
theorem newUrlsOf_init (seeds : List UrlData) :
    newUrlsOf (initWalkState seeds) = seeds := by
  simp [newUrlsOf, initWalkState]

/-- The session invariant holds at session start for duplicate-free
seeds. -/
theorem walkInv_init (seeds : List UrlData)
    (hnd : (seeds.map UrlData.theUrl).Nodup) :
    WalkInv (initWalkState seeds) :=
  ⟨List.nodup_nil, fun r hr => absurd hr (List.not_mem_nil r),
    by rw [newUrlsOf_init]; exact hnd, rfl⟩

/-- No URL is fetched twice in a session whose seed list has no
duplicate URLs. -/
theorem walk_nodup (lib : UrlLib) (cfg : DepthScrapingConfig)
    (fetch : String → Option PageData) (seeds : List UrlData) (k : Nat)
    (hnd : (seeds.map UrlData.theUrl).Nodup) :
    ((scrapeWebsitesWithDepth lib cfg fetch seeds k).map
      ScrapeResult.url).Nodup := by
  rw [scrapeWebsitesWithDepth]
  by_cases hen : cfg.enabled
  · rw [if_neg (by simp [hen])]
    exact (foldl_invariant (fun st d => levelStep lib cfg fetch k d st)
      WalkInv (List.range (k + 1)) (initWalkState seeds)
      (walkInv_init seeds hnd)
      (fun d _ st hst => levelStep_preserves_inv lib cfg fetch k d st hst)).1
  · rw [if_pos (by simp [hen])]
    exact ((scrapeWebsites_map_url_sublist lib cfg fetch [] seeds 0).nodup hnd)

/-! ### Claim theorems -/

/-- C1.  Depth bound: in every crawl session with `maxDepth = k`, every
fetch result returned by `scrapeWebsitesWithDepth` has `depth ≤ k`;
and with `maxDepth = 0` every result is a depth-0 fetch of a seed URL,
so the output contains zero depth-1 nodes regardless of the links on
the seed pages. -/
theorem depth_bound_holds (lib : UrlLib) (cfg : DepthScrapingConfig)
    (fetch : String → Option PageData) (seeds : List UrlData) (k : Nat) :
    (∀ r ∈ scrapeWebsitesWithDepth lib cfg fetch seeds k, r.depth ≤ k) ∧
    (∀ r ∈ scrapeWebsitesWithDepth lib cfg fetch seeds 0,
      r.depth = 0 ∧ r.url ∈ seeds.map UrlData.theUrl) :=
  ⟨walk_depth_le lib cfg fetch seeds k, walk_zero lib cfg fetch seeds⟩

/-- C1, witness: a concrete depth-0 session whose listed result is a
member of the output with depth 0. -/
theorem depth_bound_holds_witness :
    ((⟨"http://a.com/x", longContent, 0, []⟩ : ScrapeResult) ∈
      scrapeWebsitesWithDepth demoUrlLib theConfig demoFetchDup
        [⟨"http://a.com/x", ""⟩, ⟨"http://a.com/x", ""⟩] 0) ∧
    (⟨"http://a.com/x", longContent, 0, []⟩ : ScrapeResult).depth ≤ 0 :=
  ⟨by decide,
    (depth_bound_holds demoUrlLib theConfig demoFetchDup
      [⟨"http://a.com/x", ""⟩, ⟨"http://a.com/x", ""⟩] 0).1
      ⟨"http://a.com/x", longContent, 0, []⟩ (by decide)⟩

/-- C2, counterexample.  A URL listed twice among the seeds is fetched
twice: the level filter consults `processedUrls` before any of the
level's URLs are marked, so both copies of `http://a.com/x` pass the
filter and both are scraped — the output contains the same URL twice. -/
theorem no_revisit_counterexample :
    (scrapeWebsitesWithDepth demoUrlLib theConfig demoFetchDup
      [⟨"http://a.com/x", ""⟩, ⟨"http://a.com/x", ""⟩] 0).map
        ScrapeResult.url =
      ["http://a.com/x", "http://a.com/x"] := by decide

/-- C2, amended.  For every crawl session whose seed list contains no
duplicate URLs, every URL is fetched at most once across all depth
levels, even when it is reachable via multiple parent pages: the
fetched results carry pairwise-distinct URLs.  (Duplicate seed entries
violate this, as the counterexample shows.) -/
theorem no_revisit_distinct_seeds (lib : UrlLib) (cfg : DepthScrapingConfig)
    (fetch : String → Option PageData) (seeds : List UrlData) (k : Nat)
    (hnd : (seeds.map UrlData.theUrl).Nodup) :
    ((scrapeWebsitesWithDepth lib cfg fetch seeds k).map
      ScrapeResult.url).Nodup :=
  walk_nodup lib cfg fetch seeds k hnd

/-- C2, witness: a concrete two-level session with distinct seeds whose
outputs are pairwise-distinct URLs. -/
theorem no_revisit_distinct_seeds_witness :
    (([⟨"http://a.com/", ""⟩] : List UrlData).map UrlData.theUrl).Nodup ∧
    ((scrapeWebsitesWithDepth demoUrlLib theConfig demoFetchFrontier
      [⟨"http://a.com/", ""⟩] 1).map ScrapeResult.url).Nodup :=
  ⟨by decide,
    no_revisit_distinct_seeds demoUrlLib theConfig demoFetchFrontier
      [⟨"http://a.com/", ""⟩] 1 (by decide)⟩

/-- C3.  Frontier discipline: the frontier — the list of URL entries
scheduled for fetching at a depth level (`newUrls`, recomputed by the
walker at the start of each level from the queue and the processed
set) — contains, at the start of level `d + 1`, exactly the
classification output of level `d`'s fetch results and nothing from
earlier levels; and the walker's marking keeps the visited set equal to
the processed set across the step. -/
theorem frontier_discipline (lib : UrlLib) (cfg : DepthScrapingConfig)
    (fetch : String → Option PageData) (maxDepth d : Nat) (st : WalkState)
    (hv : st.visitedUrls = st.processedUrls) (hstop : st.stopped = false)
    (hne : st.urlsToProcess.isEmpty = false)
    (hnew : (newUrlsOf st).isEmpty = false) (hd : d < maxDepth) :
    newUrlsOf (levelStep lib cfg fetch maxDepth d st) =
      childUrlData (extractChildLinksFromResults
        (scrapeWebsites lib cfg fetch
          (st.visitedUrls ++ (newUrlsOf st).map UrlData.theUrl)
          (newUrlsOf st) d)) ∧
    (levelStep lib cfg fetch maxDepth d st).visitedUrls =
      (levelStep lib cfg fetch maxDepth d st).processedUrls := by
  rw [levelStep_eq_main lib cfg fetch maxDepth d st hstop hne hnew hd]
  constructor
  · show ((st.urlsToProcess ++ childUrlData _).filter fun u =>
      !(st.processedUrls ++ (newUrlsOf st).map UrlData.theUrl).contains
        u.theUrl) = _
    rw [List.filter_append, filter_old_queue_nil, List.nil_append,
      filter_children_all _ _ (children_not_processed lib cfg fetch st d hv)]
  · show st.visitedUrls ++ _ = st.processedUrls ++ _
    rw [hv]

/-- C3, witness: a concrete level-0 step on one seed page whose next
frontier is exactly the page's classified child link. -/
theorem frontier_discipline_witness :
    ((initWalkState [⟨"http://a.com/", ""⟩]).visitedUrls =
      (initWalkState [⟨"http://a.com/", ""⟩]).processedUrls) ∧
    ((initWalkState [⟨"http://a.com/", ""⟩]).stopped = false) ∧
    ((initWalkState [⟨"http://a.com/", ""⟩]).urlsToProcess.isEmpty = false) ∧
    ((newUrlsOf (initWalkState [⟨"http://a.com/", ""⟩])).isEmpty = false) ∧
    (0 < 1) ∧
    (newUrlsOf (levelStep demoUrlLib theConfig demoFetchFrontier 1 0
        (initWalkState [⟨"http://a.com/", ""⟩])) =
      childUrlData (extractChildLinksFromResults
        (scrapeWebsites demoUrlLib theConfig demoFetchFrontier
          ((initWalkState [⟨"http://a.com/", ""⟩]).visitedUrls ++
            (newUrlsOf (initWalkState [⟨"http://a.com/", ""⟩])).map
              UrlData.theUrl)
          (newUrlsOf (initWalkState [⟨"http://a.com/", ""⟩])) 0)) ∧
      (levelStep demoUrlLib theConfig demoFetchFrontier 1 0
          (initWalkState [⟨"http://a.com/", ""⟩])).visitedUrls =
        (levelStep demoUrlLib theConfig demoFetchFrontier 1 0
          (initWalkState [⟨"http://a.com/", ""⟩])).processedUrls) :=
  ⟨rfl, rfl, by decide, by decide, by decide,
    frontier_discipline demoUrlLib theConfig demoFetchFrontier 1 0
      (initWalkState [⟨"http://a.com/", ""⟩]) rfl rfl (by decide) (by decide)
      (by decide)⟩

/-- C4.  Fan-out cap: for every fetched page, the classified child
links number at most `maxChildLinksPerPage`; when the cap truncates,
the links kept are exactly the first accepted ones in document order
(the capped scan is the `take` of the uncapped scan); and every
successful `scrapeWebsite` result obeys the cap. -/
theorem fanout_cap (lib : UrlLib) (cfg : DepthScrapingConfig)
    (hcap : 1 ≤ cfg.maxChildLinksPerPage) :
    (∀ (visited : List String) (raw : List RawLink) (base : String) (d : Nat),
      (filterAndProcessLinks lib cfg visited raw base d).length ≤
        cfg.maxChildLinksPerPage ∧
      filterAndProcessLinks lib cfg visited raw base d =
        (filterLinksNoCap lib cfg visited base (getDomain lib base) d
          raw []).take cfg.maxChildLinksPerPage) ∧
    (∀ (fetch : String → Option PageData) (visited : List String)
      (url : String) (d : Nat) (r : ScrapeResult),
      scrapeWebsite lib cfg fetch visited url d = some r →
      r.childLinks.length ≤ cfg.maxChildLinksPerPage) := by
  have hmax : max cfg.maxChildLinksPerPage 1 = cfg.maxChildLinksPerPage :=
    Nat.max_eq_left hcap
  have key : ∀ (visited : List String) (raw : List RawLink) (base : String)
      (d : Nat),
      (filterAndProcessLinks lib cfg visited raw base d).length ≤
        cfg.maxChildLinksPerPage ∧
      filterAndProcessLinks lib cfg visited raw base d =
        (filterLinksNoCap lib cfg visited base (getDomain lib base) d
          raw []).take cfg.maxChildLinksPerPage := by
    intro visited raw base d
    have heq := filterLinksAux_eq_take lib cfg visited base
      (getDomain lib base) d raw [] [] (by simpa [hmax] using hcap)
    rw [hmax] at heq
    simp only [List.length_nil, List.nil_append, Nat.sub_zero] at heq
    refine ⟨?_, heq⟩
    rw [show filterAndProcessLinks lib cfg visited raw base d =
      filterLinksAux lib cfg visited base (getDomain lib base) d raw [] []
      from rfl, heq]
    exact List.length_take_le _ _
  refine ⟨key, ?_⟩
  intro fetch visited url d r hr
  obtain ⟨-, -, hchild | hchild⟩ := scrapeWebsite_some _ _ _ _ _ _ _ hr
  · rw [hchild]; exact (key visited _ url d).1
  · rw [hchild]; exact Nat.le_trans (Nat.zero_le _) hcap

/-- C4, witness: the cap facts evaluated on a concrete two-link page
under the repository configuration (`maxChildLinksPerPage = 100`). -/
theorem fanout_cap_witness :
    1 ≤ theConfig.maxChildLinksPerPage ∧
    ((filterAndProcessLinks demoUrlLib theConfig [] demoRawLinks
        "http://a.com/" 0).length ≤ theConfig.maxChildLinksPerPage ∧
      filterAndProcessLinks demoUrlLib theConfig [] demoRawLinks
          "http://a.com/" 0 =
        (filterLinksNoCap demoUrlLib theConfig []
          "http://a.com/" (getDomain demoUrlLib "http://a.com/") 0
          demoRawLinks []).take theConfig.maxChildLinksPerPage) :=
  ⟨by decide,
    (fanout_cap demoUrlLib theConfig (by decide)).1 [] demoRawLinks
      "http://a.com/" 0⟩

/-- C5.  Exclude-pattern exclusion: a link whose resolved URL contains
a configured exclude pattern as a substring is rejected by the
classifier in both the strict and the open variant, and consequently
never appears in the frontier output of `filterAndProcessLinks`. -/
theorem exclude_pattern_exclusion :
    (∀ (lib : UrlLib) (cfg : DepthScrapingConfig) (url : String)
      (link : RawLink) (baseDomain p : String), p ∈ cfg.excludePatterns →
      jsIncludes url p = true →
      isValidChildLink lib cfg url link baseDomain = false ∧
      isValidChildLinkOpen lib cfg url link baseDomain = false) ∧
    (∀ (lib : UrlLib) (cfg : DepthScrapingConfig) (visited : List String)
      (raw : List RawLink) (base : String) (d : Nat) (c : ChildLink),
      c ∈ filterAndProcessLinks lib cfg visited raw base d →
      ∀ p ∈ cfg.excludePatterns, jsIncludes c.url p = false) := by
  constructor
  · intro lib cfg url link dom p hp hinc
    exact ⟨isValidChildLink_exclude lib cfg url link dom p hp hinc,
      isValidChildLinkOpen_exclude lib cfg url link dom p hp hinc⟩
  · intro lib cfg visited raw base d c hc p hp
    obtain ⟨link, u, -, -, -, hval, rfl⟩ :=
      filterAndProcessLinks_mem _ _ _ _ _ _ _ hc
    by_contra hinc
    have h1 : jsIncludes (mkChildLink u link d base).url p = true := by
      revert hinc
      cases jsIncludes (mkChildLink u link d base).url p <;> simp
    have h3 := isValidChildLink_exclude lib cfg u link (getDomain lib base) p
      hp h1
    exact Bool.noConfusion (hval.symm.trans h3)

/-- C5, witness: a `.pdf` link is rejected by both classifier variants
under the repository configuration. -/
theorem exclude_pattern_exclusion_witness :
    (".pdf" ∈ theConfig.excludePatterns) ∧
    jsIncludes "https://x.com/doc.pdf" ".pdf" = true ∧
    (isValidChildLink demoUrlLib theConfig "https://x.com/doc.pdf"
        ⟨"/doc.pdf", "Download", ""⟩ "x.com" = false ∧
      isValidChildLinkOpen demoUrlLib theConfig "https://x.com/doc.pdf"
        ⟨"/doc.pdf", "Download", ""⟩ "x.com" = false) :=
  ⟨by decide, by decide,
    exclude_pattern_exclusion.1 demoUrlLib theConfig "https://x.com/doc.pdf"
      ⟨"/doc.pdf", "Download", ""⟩ "x.com" ".pdf" (by decide) (by decide)⟩

/-- C6.  Fetch adapter error handling: the adapter is a total function
into `Option` — a navigation failure yields the failed result (`none`,
the embedding of `FetchResult{success:false}`), a page with fewer than
100 characters of extracted text yields the failed result, the walker
receives exactly the settled successful results (never an unhandled
failure), and scheduled children only ever come from returned results,
so a failed page schedules none. -/
theorem fetch_adapter_error_handling (lib : UrlLib)
    (cfg : DepthScrapingConfig) (fetch : String → Option PageData)
    (visited : List String) (url : String) (depth : Nat) :
    (fetch url = none → scrapeWebsite lib cfg fetch visited url depth = none) ∧
    (∀ pd, fetch url = some pd → jsLength pd.content < 100 →
      scrapeWebsite lib cfg fetch visited url depth = none) ∧
    (∀ urls, scrapeWebsites lib cfg fetch visited urls depth =
      urls.filterMap fun u =>
        scrapeWebsite lib cfg fetch visited u.theUrl depth) ∧
    (∀ (results : List ScrapeResult) (c : ChildLink),
      c ∈ extractChildLinksFromResults results →
      ∃ r ∈ results, c ∈ r.childLinks) := by
  refine ⟨?_, ?_,
    fun urls => scrapeWebsites_eq_filterMap lib cfg fetch visited urls depth,
    extractChildLinks_mem⟩
  · intro h
    simp only [scrapeWebsite, h]
  · intro pd h hlen
    simp only [scrapeWebsite, h, if_pos hlen]

/-- C6, witness: a failed navigation and a 4-character page both yield
the failed result on concrete inputs. -/
theorem fetch_adapter_error_handling_witness :
    scrapeWebsite demoUrlLib theConfig demoFetchDup []
        "http://missing.com/" 0 = none ∧
    scrapeWebsite demoUrlLib theConfig demoFetchShort []
        "http://short.com/" 0 = none :=
  ⟨(fetch_adapter_error_handling demoUrlLib theConfig demoFetchDup []
      "http://missing.com/" 0).1 (by decide),
    (fetch_adapter_error_handling demoUrlLib theConfig demoFetchShort []
      "http://short.com/" 0).2.1 ⟨"tiny", []⟩ (by decide) (by decide)⟩

/-- C7.  Circuit breaker: (i) five consecutive failing governed calls
from a fresh closed breaker open the circuit; (ii) while the circuit is
open and the cooldown window has not elapsed, every governed call
returns the fallback value with the wrapped operation attempted zero
times and the state untouched; (iii) once the cooldown window has
elapsed, the open-circuit check closes the circuit again (count
reset). -/
theorem circuit_breaker (α : Type) :
    (∀ (message : String) (fb : α) (now : Nat) (st : CircuitState),
      isRetryableError message = false → st.circuitOpen = false →
      st.failureCount = 0 →
      ((fun s => (retryWithBackoff (fun _ => Except.error message) fb now
          s).state)^[circuitBreakerThreshold] st).circuitOpen = true) ∧
    (∀ (op : Nat → Except String α) (fb : α) (now : Nat) (st : CircuitState),
      st.circuitOpen = true →
      now - st.lastFailureTime ≤ circuitBreakerTimeout →
      retryWithBackoff op fb now st = ⟨.fallback fb, 0, st⟩) ∧
    (∀ (now : Nat) (st : CircuitState), st.circuitOpen = true →
      circuitBreakerTimeout < now - st.lastFailureTime →
      (isCircuitOpen now st).1 = false ∧
      (isCircuitOpen now st).2.circuitOpen = false ∧
      (isCircuitOpen now st).2.failureCount = 0) := by
  refine ⟨?_, ?_, ?_⟩
  · intro message fb now st hmsg hopen hcount
    have run_one : ∀ (t : CircuitState) (attempt mr fuel opCalls : Nat),
        runAttempts (fun _ => Except.error message) fb now mr attempt
          (fuel + 1) opCalls t =
          ⟨.thrown message, opCalls + 1, recordFailure now t⟩ := by
      intro t attempt mr fuel opCalls
      simp [runAttempts, hmsg]
    have step_eq : ∀ t : CircuitState, t.circuitOpen = false →
        (retryWithBackoff (fun _ => Except.error message) fb now t).state =
          recordFailure now t := by
      intro t ht
      have hcirc : isCircuitOpen now t = (false, t) := by
        rw [isCircuitOpen, ht]; rfl
      rw [retryWithBackoff, hcirc]
      show (runAttempts (fun _ => Except.error message) fb now
        maxRetriesDefault 1 (4 + 1) 0 t).state = _
      rw [run_one]
    have e1 : (retryWithBackoff (fun _ => Except.error message)
        fb now st).state = ⟨1, now, false⟩ := by
      rw [step_eq st hopen]
      simp [recordFailure, hcount, hopen, circuitBreakerThreshold]
    have e2 : (retryWithBackoff (fun _ => Except.error message)
        fb now ⟨1, now, false⟩).state = ⟨2, now, false⟩ := by
      rw [step_eq ⟨1, now, false⟩ rfl]
      simp [recordFailure, circuitBreakerThreshold]
    have e3 : (retryWithBackoff (fun _ => Except.error message)
        fb now ⟨2, now, false⟩).state = ⟨3, now, false⟩ := by
      rw [step_eq ⟨2, now, false⟩ rfl]
      simp [recordFailure, circuitBreakerThreshold]
    have e4 : (retryWithBackoff (fun _ => Except.error message)
        fb now ⟨3, now, false⟩).state = ⟨4, now, false⟩ := by
      rw [step_eq ⟨3, now, false⟩ rfl]
      simp [recordFailure, circuitBreakerThreshold]
    have e5 : (retryWithBackoff (fun _ => Except.error message)
        fb now ⟨4, now, false⟩).state = ⟨5, now, true⟩ := by
      rw [step_eq ⟨4, now, false⟩ rfl]
      simp [recordFailure, circuitBreakerThreshold]
    show ((fun s => (retryWithBackoff (fun _ => Except.error message)
      fb now s).state)^[5] st).circuitOpen = true
    rw [show (5 : Nat) = 4 + 1 from rfl, Function.iterate_succ_apply, e1,
      show (4 : Nat) = 3 + 1 from rfl, Function.iterate_succ_apply, e2,
      show (3 : Nat) = 2 + 1 from rfl, Function.iterate_succ_apply, e3,
      show (2 : Nat) = 1 + 1 from rfl, Function.iterate_succ_apply, e4,
      Function.iterate_one]
    show ((retryWithBackoff (fun _ => Except.error message) fb now
      ⟨4, now, false⟩).state).circuitOpen = true
    rw [e5]
  · intro op fb now st hopen hwin
    have hcirc : isCircuitOpen now st = (true, st) := by
      rw [isCircuitOpen, hopen]
      simp [Nat.not_lt.mpr hwin]
    rw [retryWithBackoff, hcirc]
  · intro now st hopen hpast
    have hcirc : isCircuitOpen now st =
        (false, { st with circuitOpen := false, failureCount := 0 }) := by
      rw [isCircuitOpen, hopen]
      simp [hpast]
    rw [hcirc]
    exact ⟨rfl, rfl, rfl⟩

/-- C7, witness: the three breaker behaviours evaluated on concrete
states, times and a concrete non-retryable error message. -/
theorem circuit_breaker_witness :
    isRetryableError "boom" = false ∧
    ((fun s => (retryWithBackoff (fun _ => Except.error "boom") (0 : Nat)
        1000 s).state)^[circuitBreakerThreshold]
      ⟨0, 0, false⟩).circuitOpen = true ∧
    retryWithBackoff (fun _ => Except.ok (7 : Nat)) 0 2000 ⟨5, 1000, true⟩ =
      ⟨.fallback 0, 0, ⟨5, 1000, true⟩⟩ ∧
    ((isCircuitOpen 400001 ⟨5, 1000, true⟩).1 = false ∧
      (isCircuitOpen 400001 ⟨5, 1000, true⟩).2.circuitOpen = false ∧
      (isCircuitOpen 400001 ⟨5, 1000, true⟩).2.failureCount = 0) :=
  ⟨by decide,
    (circuit_breaker Nat).1 "boom" 0 1000 ⟨0, 0, false⟩ (by decide) rfl rfl,
    (circuit_breaker Nat).2.1 (fun _ => Except.ok 7) 0 2000 ⟨5, 1000, true⟩
      rfl (by decide),
    (circuit_breaker Nat).2.2 400001 ⟨5, 1000, true⟩ rfl (by decide)⟩

/-- An ASCII-alphabetic character is not whitespace. -/
theorem isAlpha_not_ws (c : Char) (h : c.isAlpha = true) :
    c.isWhitespace = false := by
  by_contra hw
  have hw' : c.isWhitespace = true := by
    revert hw; cases c.isWhitespace <;> simp
  have hcases : ((c = ' ' ∨ c = '\t') ∨ c = '\r') ∨ c = '\n' := by
    simpa [Char.isWhitespace] using hw'
  rcases hcases with ((rfl | rfl) | rfl) | rfl <;> exact absurd h (by decide)

/-- A non-whitespace character of a string survives `jsTrim`. -/
theorem mem_jsTrim_of_not_ws (s : String) (c : Char) (hc : c ∈ s.data)
    (hw : c.isWhitespace = false) : c ∈ (jsTrim s).data := by
  have step : ∀ l : List Char, c ∈ l → c ∈ l.dropWhile Char.isWhitespace := by
    intro l hl
    have hsplit : c ∈ l.takeWhile Char.isWhitespace ++
        l.dropWhile Char.isWhitespace := by
      rw [List.takeWhile_append_dropWhile]; exact hl
    rcases List.mem_append.mp hsplit with h | h
    · have hmem := List.mem_takeWhile_imp h
      rw [hw] at hmem
      exact Bool.noConfusion hmem
    · exact h
  show c ∈ ((s.data.dropWhile Char.isWhitespace).reverse.dropWhile
    Char.isWhitespace).reverse
  rw [List.mem_reverse]
  exact step _ (List.mem_reverse.mpr (step _ hc))

/-- C8, counterexample.  In the strict variant — the one the walker's
`ChildLinkExtractor` uses — an include-pattern match on the URL accepts
the link before any anchor-text check runs: a 2-character anchor text
on an `/about` URL is accepted, so classification does not always
reject anchor text shorter than 3 characters. -/
theorem anchor_text_counterexample :
    jsLength (jsToLower "ab") < 3 ∧
    isValidChildLink demoUrlLib theConfig "https://x.com/about"
      ⟨"/about", "ab", ""⟩ "x.com" = true :=
  ⟨by decide, by decide⟩

/-- C8, amended.  In the open variant (`proxyManager.js`) classification
rejects every link whose anchor text is shorter than 3 characters,
exactly equals a generic-navigation term, or is purely non-alphabetic.
In the strict variant (`childLinkExtractor.js`, the walker's default),
those rejections hold only when the URL matches no include pattern, and
purely non-alphabetic text is rejected only when its length is at most
10 (via the relevance fallback). -/
theorem anchor_text_heuristics :
    (∀ (lib : UrlLib) (cfg : DepthScrapingConfig) (url : String)
      (link : RawLink) (dom : String),
      (jsLength (jsToLower link.text) < 3 →
        isValidChildLinkOpen lib cfg url link dom = false) ∧
      (jsToLower link.text ∈ genericNavTextsOpen →
        isValidChildLinkOpen lib cfg url link dom = false) ∧
      ((jsTrim (jsToLower link.text)).data.all (fun c => !c.isAlpha) = true →
        isValidChildLinkOpen lib cfg url link dom = false)) ∧
    (∀ (lib : UrlLib) (cfg : DepthScrapingConfig) (url : String)
      (link : RawLink) (dom : String),
      cfg.includePatterns.any (fun pattern => jsIncludes url pattern) = false →
      (jsLength (jsToLower link.text) < 3 →
        isValidChildLink lib cfg url link dom = false) ∧
      (jsToLower link.text ∈ genericNavTexts →
        isValidChildLink lib cfg url link dom = false) ∧
      ((jsTrim (jsToLower link.text)).data.all (fun c => !c.isAlpha) = true →
        jsLength (jsToLower link.text) ≤ 10 →
        isValidChildLink lib cfg url link dom = false)) := by
  constructor
  · intro lib cfg url link dom
    refine ⟨fun hlen => ?_, fun hgen => ?_, fun hna => ?_⟩
    · cases hparse : lib.parse url with
      | none => simp [isValidChildLinkOpen, hparse]
      | some u =>
        simp only [isValidChildLinkOpen, hparse]
        split_ifs <;> rfl
    · cases hparse : lib.parse url with
      | none => simp [isValidChildLinkOpen, hparse]
      | some u =>
        have hany : (genericNavTextsOpen.any
            fun generic => decide (jsToLower link.text = generic)) = true :=
          List.any_eq_true.mpr ⟨jsToLower link.text, hgen, decide_eq_true rfl⟩
        simp only [isValidChildLinkOpen, hparse]
        split_ifs <;> rfl
    · cases hparse : lib.parse url with
      | none => simp [isValidChildLinkOpen, hparse]
      | some u =>
        simp only [isValidChildLinkOpen, hparse]
        split_ifs <;> rfl
  · intro lib cfg url link dom hincl
    have hkwfalse : (jsTrim (jsToLower link.text)).data.all
        (fun c => !c.isAlpha) = true →
        relevantKeywords.any
          (fun keyword => jsIncludes (jsToLower link.text) keyword) = false := by
      intro hna
      by_contra hx
      have hx' : relevantKeywords.any
          (fun keyword => jsIncludes (jsToLower link.text) keyword) = true := by
        revert hx
        cases relevantKeywords.any
          (fun keyword => jsIncludes (jsToLower link.text) keyword) <;> simp
      obtain ⟨k, hk, hki⟩ := List.any_eq_true.mp hx'
      have hsub : k.data <:+: (jsToLower link.text).data := by
        simpa [jsIncludes] using hki
      have halpha : ∀ k ∈ relevantKeywords, k.data.any Char.isAlpha = true :=
        by decide
      obtain ⟨c, hck, hca⟩ := List.any_eq_true.mp (halpha k hk)
      have hct : c ∈ (jsTrim (jsToLower link.text)).data :=
        mem_jsTrim_of_not_ws _ c (hsub.subset hck) (isAlpha_not_ws c hca)
      have hfin := List.all_eq_true.mp hna c hct
      rw [hca] at hfin
      exact Bool.noConfusion hfin
    refine ⟨fun hlen => ?_, fun hgen => ?_, fun hna hlen10 => ?_⟩
    · cases hparse : lib.parse url with
      | none => simp [isValidChildLink, hparse]
      | some u =>
        simp only [isValidChildLink, hparse]
        split_ifs <;> first
          | rfl
          | exact Bool.noConfusion (hincl ▸ (by assumption :
              cfg.includePatterns.any (fun pattern => jsIncludes url pattern) =
                true))
    · cases hparse : lib.parse url with
      | none => simp [isValidChildLink, hparse]
      | some u =>
        have hany : (genericNavTexts.any
            fun generic => decide (jsToLower link.text = generic)) = true :=
          List.any_eq_true.mpr ⟨jsToLower link.text, hgen, decide_eq_true rfl⟩
        simp only [isValidChildLink, hparse]
        split_ifs <;> first
          | rfl
          | exact Bool.noConfusion (hincl ▸ (by assumption :
              cfg.includePatterns.any (fun pattern => jsIncludes url pattern) =
                true))
    · cases hparse : lib.parse url with
      | none => simp [isValidChildLink, hparse]
      | some u =>
        simp only [isValidChildLink, hparse]
        split_ifs <;> first
          | rfl
          | exact Bool.noConfusion (hincl ▸ (by assumption :
              cfg.includePatterns.any (fun pattern => jsIncludes url pattern) =
                true))
          | simp [hkwfalse hna, Nat.not_lt.mpr hlen10]

/-- C8, witness for the amended claim: concrete rejections in both
variants — a 2-character anchor, the generic term `home`, and the
purely numeric anchor `12345` on a URL matching no include pattern. -/
theorem anchor_text_heuristics_witness :
    (jsLength (jsToLower "ab") < 3 ∧
      isValidChildLinkOpen demoUrlLib theConfig "https://x.com/page"
        ⟨"/page", "ab", ""⟩ "x.com" = false) ∧
    (jsToLower "Home" ∈ genericNavTextsOpen ∧
      isValidChildLinkOpen demoUrlLib theConfig "https://x.com/page"
        ⟨"/page", "Home", ""⟩ "x.com" = false) ∧
    (theConfig.includePatterns.any
        (fun pattern => jsIncludes "https://x.com/page" pattern) = false ∧
      isValidChildLink demoUrlLib theConfig "https://x.com/page"
        ⟨"/page", "12345", ""⟩ "x.com" = false) :=
  ⟨⟨by decide,
      (anchor_text_heuristics.1 demoUrlLib theConfig "https://x.com/page"
        ⟨"/page", "ab", ""⟩ "x.com").1 (by decide)⟩,
    ⟨by decide,
      (anchor_text_heuristics.1 demoUrlLib theConfig "https://x.com/page"
        ⟨"/page", "Home", ""⟩ "x.com").2.1 (by decide)⟩,
    ⟨by decide,
      (anchor_text_heuristics.2 demoUrlLib theConfig "https://x.com/page"
        ⟨"/page", "12345", ""⟩ "x.com" (by decide)).2.2 (by decide)
        (by decide)⟩⟩

/-- The dedup loop keeps, for each identity key, exactly the first
occurrence among leads whose key is not yet seen. -/
theorem removeDuplicatesAux_filter (k : String) :
    ∀ (leads : List Lead) (seen : List String),
      (removeDuplicatesAux leads seen).filter (fun l => leadKey l == k) =
        if k ∈ seen then []
        else (leads.filter (fun l => leadKey l == k)).take 1 := by
  intro leads
  induction leads with
  | nil =>
    intro seen
    rw [removeDuplicatesAux]
    simp
  | cons lead rest ih =>
    intro seen
    rw [removeDuplicatesAux]
    by_cases h1 : leadKey lead ∈ seen
    · rw [if_pos h1, ih seen]
      by_cases h2 : k ∈ seen
      · rw [if_pos h2, if_pos h2]
      · rw [if_neg h2, if_neg h2, List.filter_cons]
        have hne : (leadKey lead == k) = false :=
          beq_eq_false_iff_ne.mpr fun hk => h2 (hk ▸ h1)
        rw [hne]
        simp
    · rw [if_neg h1, List.filter_cons, List.filter_cons]
      by_cases h3 : (leadKey lead == k) = true
      · have hk : leadKey lead = k := eq_of_beq h3
        rw [h3]
        simp only [if_true]
        rw [ih (leadKey lead :: seen),
          if_pos (by rw [hk]; exact List.mem_cons_self _ _),
          if_neg (fun hmem => h1 (hk ▸ hmem))]
        simp
      · have h3' : (leadKey lead == k) = false := by
          revert h3; cases leadKey lead == k <;> simp
        rw [h3']
        simp only [Bool.false_eq_true, if_false]
        rw [ih (leadKey lead :: seen)]
        have hmemiff : (k ∈ leadKey lead :: seen) ↔ k ∈ seen := by
          constructor
          · intro hmem
            rcases List.mem_cons.mp hmem with hk | hk
            · exact absurd (beq_of_eq hk.symm) (by rw [h3']; simp)
            · exact hk
          · exact List.mem_cons_of_mem _
        by_cases h2 : k ∈ seen
        · rw [if_pos (hmemiff.mpr h2), if_pos h2]
        · rw [if_neg (fun hmem => h2 (hmemiff.mp hmem)), if_neg h2]

/-- The dedup loop returns an order-preserving selection of its input. -/
theorem removeDuplicatesAux_sublist :
    ∀ (leads : List Lead) (seen : List String),
      (removeDuplicatesAux leads seen).Sublist leads := by
  intro leads
  induction leads with
  | nil => intro seen; exact List.Sublist.refl _
  | cons lead rest ih =>
    intro seen
    rw [removeDuplicatesAux]
    by_cases h1 : leadKey lead ∈ seen
    · rw [if_pos h1]
      exact List.Sublist.cons _ (ih seen)
    · rw [if_neg h1]
      exact List.Sublist.cons₂ _ (ih (leadKey lead :: seen))

/-- C9.  Lead dedup correctness: among the leads sharing one
normalized `(name, email)` identity key, exactly the first occurrence
in sequence order survives `removeDuplicates` (the survivors with that
key are the `take 1` of the input's occurrences), and the output is an
order-preserving sublist of the input (later duplicates are simply
dropped). -/
theorem lead_dedup_first_wins (leads : List Lead) (k : String) :
    (removeDuplicates leads).filter (fun l => leadKey l == k) =
      (leads.filter (fun l => leadKey l == k)).take 1 ∧
    (removeDuplicates leads).Sublist leads := by
  refine ⟨?_, removeDuplicatesAux_sublist leads []⟩
  rw [removeDuplicates, removeDuplicatesAux_filter k leads [],
    if_neg (List.not_mem_nil k)]

/-- Heads of distinct prefixes differ. -/
theorem not_prefix_of_head_ne (c d : Char) (hcd : (c == d) = false)
    (p s : List Char) : (c :: p).isPrefixOf (d :: s) = false := by
  simp [List.isPrefixOf, hcd]

/-- A list extending a cons prefix starts with the same head. -/
theorem head_of_isPrefixOf (c : Char) (p s : List Char)
    (h : (c :: p).isPrefixOf s = true) : ∃ t, s = c :: t := by
  cases s with
  | nil => simp [List.isPrefixOf] at h
  | cons d t =>
    rw [show (c :: p).isPrefixOf (d :: t) = (c == d && p.isPrefixOf t)
      from rfl, Bool.and_eq_true] at h
    exact ⟨t, by rw [eq_of_beq h.1]⟩

/-- C10.  URL identity is exact string equality: `resolveUrl` returns
any `http://`/`https://` href unchanged for every base URL (no
canonicalization), and the visited-set and per-page dedup compare raw
strings — with `https://x.com/team` already visited, the
trailing-slash variant `https://x.com/team/` is still classified and
scheduled as a distinct crawl node, while the exact string is
skipped. -/
theorem url_identity_exact_string :
    (∀ (lib : UrlLib) (href baseUrl : String),
      (jsStartsWith href "http://" || jsStartsWith href "https://") = true →
      resolveUrl lib href baseUrl = some href) ∧
    filterAndProcessLinks demoUrlLib theConfig ["https://x.com/team"]
        [⟨"https://x.com/team/", "Our Team Page", ""⟩] "https://x.com/" 0 =
      [⟨"https://x.com/team/", "Our Team Page", "", 1, "https://x.com/"⟩] ∧
    filterAndProcessLinks demoUrlLib theConfig ["https://x.com/team"]
        [⟨"https://x.com/team", "Our Team Page", ""⟩] "https://x.com/" 0 =
      [] := by
  refine ⟨?_, by decide, by decide⟩
  intro lib href baseUrl h
  have hhd : ∃ rest, href.data = 'h' :: rest := by
    rcases Bool.or_eq_true_iff.mp h with hp | hp
    · rw [jsStartsWith, show "http://".data = 'h' :: "ttp://".data
        from rfl] at hp
      exact head_of_isPrefixOf _ _ _ hp
    · rw [jsStartsWith, show "https://".data = 'h' :: "ttps://".data
        from rfl] at hp
      exact head_of_isPrefixOf _ _ _ hp
  obtain ⟨rest, hhd⟩ := hhd
  have h1 : jsStartsWith href "javascript:" = false := by
    rw [jsStartsWith, hhd,
      show "javascript:".data = 'j' :: "avascript:".data from rfl]
    exact not_prefix_of_head_ne _ _ (by decide) _ _
  have h2 : jsStartsWith href "mailto:" = false := by
    rw [jsStartsWith, hhd, show "mailto:".data = 'm' :: "ailto:".data from rfl]
    exact not_prefix_of_head_ne _ _ (by decide) _ _
  have h3 : jsStartsWith href "tel:" = false := by
    rw [jsStartsWith, hhd, show "tel:".data = 't' :: "el:".data from rfl]
    exact not_prefix_of_head_ne _ _ (by decide) _ _
  have h4 : jsStartsWith href "#" = false := by
    rw [jsStartsWith, hhd, show "#".data = '#' :: ([] : List Char) from rfl]
    exact not_prefix_of_head_ne _ _ (by decide) _ _
  simp [resolveUrl, h1, h2, h3, h4, h]

/-- C10, witness: an absolute https href is returned unchanged against
an unrelated base URL. -/
theorem url_identity_exact_string_witness :
    (jsStartsWith "https://example.com" "http://" ||
      jsStartsWith "https://example.com" "https://") = true ∧
    resolveUrl demoUrlLib "https://example.com" "http://base.com/" =
      some "https://example.com" :=
  ⟨by decide,
    url_identity_exact_string.1 demoUrlLib "https://example.com"
      "http://base.com/" (by decide)⟩

end Scrapper
